import Mathlib

/-
Verification of the NoLongerEvil-Thermostat device-facing protocol server.

The development shallowly embeds the parts of the TypeScript server that the
checked properties mention:

  - the JSON-like dynamic values the protocol exchanges (JVal, JArr, JObj),
    with JavaScript object semantics: an object is a finite list of fields in
    insertion order, property assignment updates in place or appends, and the
    spread operator copies fields left to right;
  - DeviceStateService.mergeValues, areValuesEqual (JSON.stringify based) and
    isServerNewer from src/server/src/services/DeviceStateService.ts;
  - the transport handlers handleTransportSubscribe and handlePut from the
    transport route module, restricted to the state of one
    (serial, object_key) cell, since every write of those handlers touches
    exactly the object_key named by the client object being processed;
  - the away branch of handleCommand from src/server/src/routes/control/command.ts;
  - claimEntryKey from src/server/convex/users.ts;
  - WeatherService.getWeather with the upstream fetch given as an oracle;
  - a small reference-heap model for DeviceStateService.getAllState, whose
    body is the idiom JSON.parse(JSON.stringify(cache)).

Numbers are embedded as Int (revisions and timestamps as Nat where the code
keeps them non-negative); fields that JavaScript may leave undefined are
Option-valued.
-/

/-! # JSON-like dynamic values -/

mutual

/-- A JSON value as JavaScript handles it: null, boolean, number, string,
array, or object. Objects keep their fields in insertion order, which is the
order JSON.stringify serializes and the spread operator copies. -/
inductive JVal where
  | jnull : JVal
  | jbool (b : Bool) : JVal
  | jnum (n : Int) : JVal
  | jstr (s : String) : JVal
  | jarr (xs : JArr) : JVal
  | jobj (fs : JObj) : JVal
deriving DecidableEq

/-- A JSON array: a list of values. -/
inductive JArr where
  | nil : JArr
  | cons (hd : JVal) (tl : JArr) : JArr
deriving DecidableEq

/-- The fields of a JSON object, in insertion order. -/
inductive JObj where
  | nil : JObj
  | cons (k : String) (v : JVal) (tl : JObj) : JObj
deriving DecidableEq

end

/-- Property read: the value of the first field named k, if any. -/
def JObj.lookup : JObj → String → Option JVal
  | .nil, _ => none
  | .cons k v tl, key => if k = key then some v else tl.lookup key

/-- Whether the object has a field named k. -/
def JObj.hasKey : JObj → String → Bool
  | .nil, _ => false
  | .cons k _ tl, key => k == key || tl.hasKey key

/-- Replace the value of every field named key (objects built from JSON have
at most one). -/
def JObj.setAll : JObj → String → JVal → JObj
  | .nil, _, _ => .nil
  | .cons k v tl, key, w => .cons k (if k = key then w else v) (tl.setAll key w)

/-- Append the fields of b after those of a. -/
def JObj.append : JObj → JObj → JObj
  | .nil, b => b
  | .cons k v tl, b => .cons k v (tl.append b)

/-- JavaScript property assignment obj[key] = w: update the existing field in
place, otherwise append a new field at the end. -/
def jsAssign (o : JObj) (key : String) (w : JVal) : JObj :=
  if o.hasKey key then o.setAll key w else o.append (.cons key w .nil)

/-- The JavaScript object spread: assign the fields of b into a copy of a,
left to right. This is the semantics of the literal with spread of a then
spread of b. -/
def jsSpread : JObj → JObj → JObj
  | a, .nil => a
  | a, .cons k v tl => jsSpread (jsAssign a k v) tl

/-- True when no key occurs on two fields of the object. Objects produced by
JSON parsing always satisfy this. -/
def JObj.keysUnique : JObj → Bool
  | .nil => true
  | .cons k _ tl => !tl.hasKey k && tl.keysUnique

mutual

/-- JSON.stringify on a value of this subset: insertion-order fields, the
usual punctuation, strings quoted verbatim (the characters used in this
development need no escapes). -/
def JVal.stringify : JVal → String
  | .jnull => "null"
  | .jbool true => "true"
  | .jbool false => "false"
  | .jnum n => toString n
  | .jstr s => "\"" ++ s ++ "\""
  | .jarr xs => "[" ++ JArr.stringifyElems xs ++ "]"
  | .jobj fs => "\x7b" ++ JObj.stringifyFields fs ++ "\x7d"

/-- Comma-separated serialization of array elements. -/
def JArr.stringifyElems : JArr → String
  | .nil => ""
  | .cons v .nil => JVal.stringify v
  | .cons v tl => JVal.stringify v ++ "," ++ JArr.stringifyElems tl

/-- Comma-separated serialization of object fields, in insertion order. -/
def JObj.stringifyFields : JObj → String
  | .nil => ""
  | .cons k v .nil => "\"" ++ k ++ "\":" ++ JVal.stringify v
  | .cons k v tl => "\"" ++ k ++ "\":" ++ JVal.stringify v ++ "," ++ JObj.stringifyFields tl

end

/-- JavaScript truthiness on this value subset. -/
def jsTruthy : JVal → Bool
  | .jnull => false
  | .jbool b => b
  | .jnum n => n != 0
  | .jstr s => s ≠ ""
  | .jarr _ => true
  | .jobj _ => true

/-! # DeviceStateService (src/server/src/services/DeviceStateService.ts) -/

/-- mergeValues from DeviceStateService: the body is the object literal that
spreads existing and then incoming, so it is exactly the one-level JavaScript
spread merge. -/
def mergeValues (existing incoming : JObj) : JObj :=
  jsSpread existing incoming

/-- areValuesEqual from DeviceStateService: compares the JSON.stringify
serializations of the two values. The serialization of the values embedded
here never throws, so the catch branch of the source is unreachable. -/
def areValuesEqual (a b : JObj) : Bool :=
  JVal.stringify (.jobj a) == JVal.stringify (.jobj b)

/-- isServerNewer from DeviceStateService: revision-first, timestamp-fallback
comparison of the server object against client revision and timestamp. -/
def isServerNewer (serverRev serverTs clientRev clientTs : Nat) : Bool :=
  if clientRev < serverRev then true
  else if serverRev = clientRev ∧ clientTs < serverTs then true
  else false

/-- Remove every field named key. -/
def JObj.removeKey : JObj → String → JObj
  | .nil, _ => .nil
  | .cons k v tl, key => if k = key then tl.removeKey key else .cons k v (tl.removeKey key)

mutual

/-- The deep recursive merge in the words of the specification (section 4.B):
when both sides of a key are mappings the merge recurses, otherwise the
incoming side wins, and a key present on only one side keeps that side value.
Defined only to compare mergeValues against; it is not source code. -/
def specMergeVal : JVal → JVal → JVal
  | .jobj a, .jobj b => .jobj (specMergeObj a b)
  | _, b => b

/-- Field-wise deep merge of two objects, as the specification words it:
keys of the existing object come first (recursively merged when the incoming
object also has them), then the keys only the incoming object has. -/
def specMergeObj : JObj → JObj → JObj
  | .nil, b => b
  | .cons k v tl, b =>
      match b.lookup k with
      | some w => .cons k (specMergeVal v w) (specMergeObj tl (b.removeKey k))
      | none => .cons k v (specMergeObj tl b)

end

/-! ## Basic facts about JavaScript object operations -/

theorem JObj.lookup_eq_none_of_hasKey_false :
    ∀ (o : JObj) (k : String), o.hasKey k = false → o.lookup k = none
  | .nil, _, _ => rfl
  | .cons k0 _ tl, k, h => by
      simp only [JObj.hasKey, Bool.or_eq_false_iff, beq_eq_false_iff_ne] at h
      simp only [JObj.lookup, if_neg h.1, JObj.lookup_eq_none_of_hasKey_false tl k h.2]

theorem JObj.lookup_append :
    ∀ (a b : JObj) (k : String),
    (a.append b).lookup k =
      match a.lookup k with
      | some v => some v
      | none => b.lookup k
  | .nil, _, _ => rfl
  | .cons k0 v0 tl, b, k => by
      by_cases h : k0 = k
      · simp [JObj.append, JObj.lookup, h]
      · simp [JObj.append, JObj.lookup, h, JObj.lookup_append tl b k]

theorem JObj.lookup_setAll_self :
    ∀ (o : JObj) (key : String) (w : JVal),
    o.hasKey key = true → (o.setAll key w).lookup key = some w
  | .nil, key, _, h => by simp [JObj.hasKey] at h
  | .cons k0 v0 tl, key, w, h => by
      by_cases hk : k0 = key
      · simp [JObj.setAll, JObj.lookup, hk]
      · simp only [JObj.hasKey, Bool.or_eq_true, beq_iff_eq] at h
        rcases h with h | h
        · exact absurd h hk
        · simp [JObj.setAll, JObj.lookup, hk, JObj.lookup_setAll_self tl key w h]

theorem JObj.lookup_setAll_ne :
    ∀ (o : JObj) (key k : String) (w : JVal),
    k ≠ key → (o.setAll key w).lookup k = o.lookup k
  | .nil, _, _, _, _ => rfl
  | .cons k0 v0 tl, key, k, w, h => by
      by_cases hk : k0 = k
      · subst hk
        simp [JObj.setAll, JObj.lookup, if_neg (fun he : k0 = key => h he)]
      · simp [JObj.setAll, JObj.lookup, hk, JObj.lookup_setAll_ne tl key k w h]

theorem jsAssign_lookup_self (o : JObj) (key : String) (w : JVal) :
    (jsAssign o key w).lookup key = some w := by
  unfold jsAssign
  by_cases h : o.hasKey key
  · simp [h, JObj.lookup_setAll_self o key w h]
  · rw [if_neg (by simp [h])]
    rw [JObj.lookup_append]
    rw [JObj.lookup_eq_none_of_hasKey_false o key (by simpa using h)]
    simp [JObj.lookup]

theorem jsAssign_lookup_ne (o : JObj) (key k : String) (w : JVal) (h : k ≠ key) :
    (jsAssign o key w).lookup k = o.lookup k := by
  unfold jsAssign
  by_cases hk : o.hasKey key
  · simp [hk, JObj.lookup_setAll_ne o key k w h]
  · rw [if_neg (by simp [hk])]
    rw [JObj.lookup_append]
    cases hcase : o.lookup k with
    | some v => rfl
    | none =>
        simp only [JObj.lookup]
        rw [if_neg (fun heq : key = k => h heq.symm)]

theorem jsSpread_lookup :
    ∀ (incoming existing : JObj) (k : String), incoming.keysUnique = true →
    (jsSpread existing incoming).lookup k =
      match incoming.lookup k with
      | some v => some v
      | none => existing.lookup k
  | .nil, _, _, _ => rfl
  | .cons k0 v0 tl, e, k, hu => by
      simp only [JObj.keysUnique, Bool.and_eq_true, Bool.not_eq_true'] at hu
      show (jsSpread (jsAssign e k0 v0) tl).lookup k = _
      rw [jsSpread_lookup tl (jsAssign e k0 v0) k hu.2]
      by_cases hk : k0 = k
      · subst hk
        rw [JObj.lookup_eq_none_of_hasKey_false tl k0 hu.1]
        simp [JObj.lookup, jsAssign_lookup_self]
      · simp only [JObj.lookup, if_neg hk]
        cases htl : tl.lookup k with
        | some v => rfl
        | none => simp [jsAssign_lookup_ne e k0 k v0 (fun hkk => hk hkk.symm)]

theorem jsSpread_lookup_of_absent :
    ∀ (incoming existing : JObj) (k : String), incoming.lookup k = none →
    (jsSpread existing incoming).lookup k = existing.lookup k
  | .nil, _, _, _ => rfl
  | .cons k0 v0 tl, e, k, habs => by
      simp only [JObj.lookup] at habs
      by_cases hk : k0 = k
      · simp [hk] at habs
      · simp only [if_neg hk] at habs
        show (jsSpread (jsAssign e k0 v0) tl).lookup k = _
        rw [jsSpread_lookup_of_absent tl (jsAssign e k0 v0) k habs]
        exact jsAssign_lookup_ne e k0 k v0 (fun hkk => hk hkk.symm)

/-! ## Canonical (insertion-order independent) form of a value -/

/-- Character-wise comparison of key names, used only to fix one canonical
field order. -/
def charListLt : List Char → List Char → Bool
  | [], [] => false
  | [], _ :: _ => true
  | _ :: _, [] => false
  | c1 :: t1, c2 :: t2 =>
      if c1.toNat < c2.toNat then true
      else if c2.toNat < c1.toNat then false
      else charListLt t1 t2

/-- A total order on keys for the canonical field order. -/
def keyLt (a b : String) : Bool := charListLt a.data b.data

/-- Insert a field into a key-sorted field list, keeping it sorted. -/
def JObj.insertByKey (k : String) (v : JVal) : JObj → JObj
  | .nil => .cons k v .nil
  | .cons k2 v2 tl =>
      if keyLt k k2 then .cons k v (.cons k2 v2 tl) else .cons k2 v2 (insertByKey k v tl)

/-- Insertion sort of object fields by key. -/
def JObj.sortFields : JObj → JObj
  | .nil => .nil
  | .cons k v tl => insertByKey k v (sortFields tl)

mutual

/-- Canonical form of a value: object fields sorted by key at every depth,
array order kept. Two values have the same key-value mappings at every depth,
irrespective of the order map keys were inserted, exactly when their
canonical forms coincide. -/
def JVal.canon : JVal → JVal
  | .jnull => .jnull
  | .jbool b => .jbool b
  | .jnum n => .jnum n
  | .jstr s => .jstr s
  | .jarr xs => .jarr (JArr.canonElems xs)
  | .jobj fs => .jobj (JObj.sortFields (JObj.canonVals fs))

/-- Canonical form of every array element. -/
def JArr.canonElems : JArr → JArr
  | .nil => .nil
  | .cons v tl => .cons (JVal.canon v) (JArr.canonElems tl)

/-- Canonical form of every field value. -/
def JObj.canonVals : JObj → JObj
  | .nil => .nil
  | .cons k v tl => .cons k (JVal.canon v) (JObj.canonVals tl)

end

/-- Structural equality of two objects irrespective of key insertion order at
every depth: their canonical forms coincide. -/
def structurallyEqual (a b : JObj) : Prop :=
  JVal.canon (.jobj a) = JVal.canon (.jobj b)

/-! ## C1: mergeValues versus the deep recursive merge of the specification -/

/-- C1 counterexample. The claim says mergeValues is the recursive key-wise
overlay of incoming onto existing, recursing where both sides of a key are
mappings. On existing = (a maps to (x maps to 1)) and incoming = (a maps to
(y maps to 2)) the recursive overlay keeps the nested x field, but
mergeValues is the one-level spread and replaces the nested mapping
wholesale, so the two results differ. -/
theorem mergeValues_counterexample_not_deep :
    mergeValues (.cons "a" (.jobj (.cons "x" (.jnum 1) .nil)) .nil)
                (.cons "a" (.jobj (.cons "y" (.jnum 2) .nil)) .nil)
    ≠ specMergeObj (.cons "a" (.jobj (.cons "x" (.jnum 1) .nil)) .nil)
                   (.cons "a" (.jobj (.cons "y" (.jnum 2) .nil)) .nil) := by
  decide

/-- C1 amended: mergeValues is the one-level JavaScript spread overlay. For
every key, the merged object yields the incoming value verbatim when incoming
has the key (nested mappings and arrays replaced wholesale, no recursion),
and the existing value otherwise, for incoming objects with no duplicate
keys, which is every object produced by JSON parsing. -/
theorem mergeValues_is_shallow_overlay (existing incoming : JObj) (k : String)
    (h : incoming.keysUnique = true) :
    (mergeValues existing incoming).lookup k =
      match incoming.lookup k with
      | some v => some v
      | none => existing.lookup k :=
  jsSpread_lookup incoming existing k h

theorem mergeValues_is_shallow_overlay_witness :
    (JObj.cons "a" (.jobj (.cons "y" (.jnum 2) .nil)) .nil).keysUnique = true ∧
    (mergeValues (.cons "a" (.jobj (.cons "x" (.jnum 1) .nil)) .nil)
                 (.cons "a" (.jobj (.cons "y" (.jnum 2) .nil)) .nil)).lookup "a" =
      some (.jobj (.cons "y" (.jnum 2) .nil)) :=
  ⟨by decide, by
    rw [mergeValues_is_shallow_overlay
      (.cons "a" (.jobj (.cons "x" (.jnum 1) .nil)) .nil)
      (.cons "a" (.jobj (.cons "y" (.jnum 2) .nil)) .nil) "a" (by decide)]
    decide⟩

/-! ## C6: areValuesEqual and key insertion order -/

/-- C6 counterexample. The two objects carry the same key-value mappings
(x maps to 1, y maps to 2) inserted in opposite orders, so they are
structurally equal, yet areValuesEqual compares the JSON.stringify
serializations, which list fields in insertion order, and returns false. -/
theorem areValuesEqual_counterexample_key_order :
    structurallyEqual (.cons "x" (.jnum 1) (.cons "y" (.jnum 2) .nil))
                      (.cons "y" (.jnum 2) (.cons "x" (.jnum 1) .nil)) ∧
    areValuesEqual (.cons "x" (.jnum 1) (.cons "y" (.jnum 2) .nil))
                   (.cons "y" (.jnum 2) (.cons "x" (.jnum 1) .nil)) = false := by
  constructor
  · unfold structurallyEqual
    decide
  · decide

/-- C6 amended: areValuesEqual returns true for values whose key-value
mappings agree at every depth in the same insertion order, since it compares
insertion-order JSON serializations; permuting the keys of a mapping can make
it return false, as the counterexample shows. -/
theorem areValuesEqual_of_identical (a b : JObj) (h : a = b) :
    areValuesEqual a b = true := by
  subst h
  simp [areValuesEqual]

theorem areValuesEqual_of_identical_witness :
    areValuesEqual (.cons "x" (.jnum 1) .nil) (.cons "x" (.jnum 1) .nil) = true :=
  areValuesEqual_of_identical (.cons "x" (.jnum 1) .nil) (.cons "x" (.jnum 1) .nil) rfl

/-! # Transport handler model

The subscribe and put handlers read and write the device state one object at
a time; every write touches exactly the object_key named by the client object
being processed. The model therefore tracks the state of a single
(serial, object_key) cell. Fields a JavaScript client may omit (undefined)
are Option-valued, and the comparison operators follow JavaScript semantics:
any order comparison against undefined is false. -/

/-- The stored object of one (serial, object_key) cell. Revision and
timestamp are Option because the subscribe merge path stores the client
fields as received, which may be undefined. -/
structure Stored where
  rev : Option Nat
  ts : Option Nat
  value : JObj
deriving DecidableEq

/-- A cell of the device state: absent before the first write. -/
abbrev Cell := Option Stored

/-- The revision a read of the cell observes: the handlers coalesce with
zero, as in the expression that ors the field with 0. -/
def effRev (c : Cell) : Nat :=
  match c with
  | some s => s.rev.getD 0
  | none => 0

/-- The timestamp a read of the cell observes, coalesced with zero. -/
def effTs (c : Cell) : Nat :=
  match c with
  | some s => s.ts.getD 0
  | none => 0

/-- The value a read of the cell observes, coalesced with the empty object. -/
def cellValue (c : Cell) : JObj :=
  match c with
  | some s => s.value
  | none => .nil

/-- The weave_device_id annotation both handlers apply to the merged value
when the request carried an extractable weave device identifier. -/
def weaveAnnotate (m : JObj) (weave : Option String) : JObj :=
  match weave with
  | some w => jsAssign m "weave_device_id" (.jstr w)
  | none => m

/-- The five fan-timer fields of the device object. -/
def fanTimerFields : List String :=
  ["fan_timer_timeout", "fan_control_state", "fan_timer_duration",
   "fan_current_speed", "fan_mode"]

/-- Carry over from the existing value each listed field the merged value
lacks. -/
def preserveFields (existing : JObj) : List String → JObj → JObj
  | [], m => m
  | f :: rest, m =>
      preserveFields existing rest
        (match m.lookup f with
         | some _ => m
         | none =>
             match existing.lookup f with
             | some v => jsAssign m f v
             | none => m)

/-- Modelled from the spec: preserveFanTimer of the fan-timer utility module,
which is not among the provided sources (only its import and call sites in
the transport handlers are). Specification section 4.G: when the updated
value of the device object loses any of the five fan-timer fields, because
the device did not include them in its partial update, the prior server
values for those fields are preserved; enforced post-merge, before the
revision comparison. -/
def preserveFanTimer (merged existing : JObj) : JObj :=
  preserveFields existing fanTimerFields merged

/-- needsStructureId from the structure assignment module: true when the
value lacks a truthy structure_id field or holds the empty string there. -/
def needsStructureId (value : JObj) : Bool :=
  match value.lookup "structure_id" with
  | none => true
  | some v => !jsTruthy v || v == .jstr ""

/-- Whether the first list of characters is an initial segment of the
second. -/
def charsStartWith : List Char → List Char → Bool
  | [], _ => true
  | _ :: _, [] => false
  | c :: ct, d :: dt => c == d && charsStartWith ct dt

/-- Drop the well-known user identifier tag from an owner identifier: when
the identifier starts with the five characters of the tag, drop them. -/
def stripUserTag (uid : String) : String :=
  if charsStartWith "user_".data uid.data then String.mk (uid.data.drop 5) else uid

/-- assignStructureId from the structure assignment module, with the owner
lookup passed in: when the merged device value needs a structure_id and the
device has an owner with a non-empty identifier, write the stripped owner
identifier into structure_id; otherwise leave the value alone. -/
def assignStructureIdStep (value : JObj) (owner : Option String) : JObj :=
  if needsStructureId value then
    match owner with
    | some uid =>
        if uid = "" then value
        else jsAssign value "structure_id" (.jstr (stripUserTag uid))
    | none => value
  else value

/-- The merged value the subscribe update branch stores: the spread merge of
the incoming value into the existing one, the weave annotation, then for the
device object fan-timer preservation followed by structure-id assignment. -/
def subMergedValue (c : Cell) (incoming : JObj) (weave : Option String)
    (isDeviceKey : Bool) (owner : Option String) : JObj :=
  let merged := weaveAnnotate (mergeValues (cellValue c) incoming) weave
  if isDeviceKey then assignStructureIdStep (preserveFanTimer merged (cellValue c)) owner
  else merged

/-- The write handleTransportSubscribe performs for a client object that
carries a value and whose revision and timestamp are each absent or zero:
merge and derive, keep the revision when the merged value equals the prior
server value and bump it by one otherwise, stamp the server clock. -/
def subUpdateStep (c : Cell) (incoming : JObj) (weave : Option String)
    (isDeviceKey : Bool) (owner : Option String) (now : Nat) : Stored :=
  let merged := subMergedValue c incoming weave isDeviceKey owner
  let valuesEqual :=
    match c with
    | some s => areValuesEqual s.value merged
    | none => false
  let newRev := if valuesEqual then effRev c else effRev c + 1
  { rev := some newRev, ts := some now, value := merged }

/-- JavaScript comparison a greater-than b with b possibly undefined: false
against undefined. -/
def gtNO (a : Nat) (b : Option Nat) : Bool :=
  match b with
  | some n => decide (n < a)
  | none => false

/-- JavaScript comparison a greater-than b with a possibly undefined: false
when a is undefined. -/
def gtON (a : Option Nat) (b : Nat) : Bool :=
  match a with
  | some n => decide (b < n)
  | none => false

/-- How handleTransportSubscribe classifies a probed client object against
the server state: include in the immediate response (outdated) when revision
and timestamp are both exactly zero or when the server revision or the
server timestamp is strictly higher; accept the client fields (clientNewer)
when instead the client revision or client timestamp is strictly higher;
otherwise do nothing. -/
inductive ProbeClass where
  | outdated
  | clientNewer
  | inSync
deriving DecidableEq

/-- The classification of the subscribe handler second phase, mirroring its
comparison chain. -/
def classifyProbe (c : Cell) (cRev cTs : Option Nat) : ProbeClass :=
  if cRev == some 0 && cTs == some 0 then .outdated
  else if gtNO (effRev c) cRev || gtNO (effTs c) cTs then .outdated
  else if gtON cRev (effRev c) || gtON cTs (effTs c) then .clientNewer
  else .inSync

/-- The write the subscribe handler performs for a probed client object: on
the clientNewer classification it overlays the client value, when present,
onto the server value and stores the client revision and timestamp as
received; otherwise the cell is untouched. -/
def probeStep (c : Cell) (cRev cTs : Option Nat) (cVal : Option JObj) : Cell :=
  match classifyProbe c cRev cTs with
  | .clientNewer =>
      let merged :=
        match cVal with
        | some v => jsSpread (cellValue c) v
        | none => cellValue c
      some { rev := cRev, ts := cTs, value := merged }
  | _ => c

/-- The merged value handlePut stores: the spread merge of the incoming
value into the existing one, the weave annotation, and for the device object
fan-timer preservation. -/
def putMergedValue (c : Cell) (incoming : JObj) (weave : Option String)
    (isDeviceKey : Bool) : JObj :=
  let merged := weaveAnnotate (mergeValues (cellValue c) incoming) weave
  if isDeviceKey then preserveFanTimer merged (cellValue c) else merged

/-- The response entry handlePut mirrors for one processed object. -/
structure PutResp where
  rev : Nat
  ts : Nat
  value : Option JObj
deriving DecidableEq

/-- One object processed by handlePut: merge and derive, bump the revision by
one exactly when the merged value differs from the prior server value or no
prior object exists, store with the server clock, and mirror the object in
the response, omitting the value field for a no-op write. -/
def putStep (c : Cell) (incoming : JObj) (weave : Option String)
    (isDeviceKey : Bool) (now : Nat) : Stored × PutResp :=
  let merged := putMergedValue c incoming weave isDeviceKey
  let valuesChanged :=
    match c with
    | some s => !(areValuesEqual s.value merged)
    | none => true
  let newRev := if valuesChanged then effRev c + 1 else effRev c
  ({ rev := some newRev, ts := some now, value := merged },
   { rev := newRev, ts := now, value := if valuesChanged then some merged else none })

/-- One put operation of a sequence. -/
structure PutOp where
  incoming : JObj
  weave : Option String
  isDeviceKey : Bool
  now : Nat

/-- The cell after a sequence of puts. -/
def runPuts (c : Cell) : List PutOp → Cell
  | [] => c
  | op :: rest => runPuts (some (putStep c op.incoming op.weave op.isDeviceKey op.now).1) rest

/-! ## C2: monotonicity of the stored revision -/

/-- C2: the spec claims the stored object_revision never decreases across the
transport handler writes. Evaluating the embedded handlers at the failing
input refutes this: a put creates the object at revision 1; a subscribe probe
carrying a timestamp above the stored one but no revision at all (undefined
in JavaScript, where both the server-newer and the client-rev comparison
against undefined are false) passes the client-newer check on timestamp
alone, and the handler then stores the client revision as received, leaving
the cell with no revision, which every subsequent read coalesces to 0. The
effective stored revision decreases from 1 to 0. -/
theorem revision_decreases_on_undefined_client_revision :
    effRev (some (putStep none (.cons "a" (.jnum 1) .nil) none false 1000).1) = 1 ∧
    probeStep (some (putStep none (.cons "a" (.jnum 1) .nil) none false 1000).1)
        none (some 1001) (some (.cons "b" (.jnum 2) .nil)) =
      some { rev := none, ts := some 1001,
             value := .cons "a" (.jnum 1) (.cons "b" (.jnum 2) .nil) } ∧
    effRev (probeStep (some (putStep none (.cons "a" (.jnum 1) .nil) none false 1000).1)
        none (some 1001) (some (.cons "b" (.jnum 2) .nil))) = 0 := by
  refine ⟨rfl, ?_, rfl⟩
  rfl

/-! ## C3: which probes the subscribe handler answers immediately -/

/-- C3 counterexample. Server object at revision 1, timestamp 2000; probe
with revision 2, timestamp 1000, not both zero. The section 4.B rule of
isServerNewer says the server is not newer, because revision dominates
timestamp, yet the handler classifies the object as outdated and includes it
in the immediate response on the strength of the timestamp alone. -/
theorem subscribe_inclusion_counterexample :
    (¬((2 : Nat) = 0 ∧ (1000 : Nat) = 0)) ∧
    classifyProbe (some { rev := some 1, ts := some 2000, value := .nil })
        (some 2) (some 1000) = .outdated ∧
    isServerNewer 1 2000 2 1000 = false := by
  refine ⟨by decide, rfl, by decide⟩

/-- C3 amended: for every probe whose client revision and timestamp are
numbers not both zero, the subscribe handler includes the object in the
immediate response exactly when the server revision is strictly greater or
the server timestamp is strictly greater, a plain disjunction in which the
timestamp is not dominated by the revision. -/
theorem subscribe_inclusion_rule (c : Cell) (cRev cTs : Nat)
    (h : ¬(cRev = 0 ∧ cTs = 0)) :
    classifyProbe c (some cRev) (some cTs) = .outdated ↔
      cRev < effRev c ∨ cTs < effTs c := by
  unfold classifyProbe
  have h0 : (((some cRev : Option Nat) == some 0) && ((some cTs : Option Nat) == some 0)) = false := by
    by_cases hr : cRev = 0 <;> by_cases ht : cTs = 0 <;>
      simp [hr, ht] at h ⊢
  rw [h0]
  simp only [Bool.false_eq_true, if_false]
  by_cases hs : (gtNO (effRev c) (some cRev) || gtNO (effTs c) (some cTs)) = true
  · rw [if_pos hs]
    simp only [gtNO, Bool.or_eq_true, decide_eq_true_eq] at hs
    simpa using hs
  · rw [if_neg hs]
    simp only [gtNO, Bool.or_eq_true, decide_eq_true_eq] at hs
    push_neg at hs
    constructor
    · intro hcls
      by_cases hc : (gtON (some cRev) (effRev c) || gtON (some cTs) (effTs c)) = true
      · rw [if_pos hc] at hcls
        exact absurd hcls (by decide)
      · rw [if_neg hc] at hcls
        exact absurd hcls (by decide)
    · intro hdisj
      omega

theorem subscribe_inclusion_rule_witness :
    (¬((2 : Nat) = 0 ∧ (1000 : Nat) = 0)) ∧
    (classifyProbe (some { rev := some 1, ts := some 2000, value := .nil })
        (some 2) (some 1000) = .outdated ↔
      2 < effRev (some { rev := some 1, ts := some 2000, value := .nil }) ∨
      1000 < effTs (some { rev := some 1, ts := some 2000, value := .nil })) :=
  ⟨by decide,
   subscribe_inclusion_rule (some { rev := some 1, ts := some 2000, value := .nil })
     2 1000 (by decide)⟩

/-! ## C4: fan-timer preservation in both update paths -/

theorem weaveAnnotate_lookup_ne (m : JObj) (weave : Option String) (f : String)
    (h : f ≠ "weave_device_id") :
    (weaveAnnotate m weave).lookup f = m.lookup f := by
  cases weave with
  | none => rfl
  | some w => exact jsAssign_lookup_ne m "weave_device_id" f (.jstr w) h

theorem preserveFields_lookup_eq (existing : JObj) :
    ∀ (fields : List String) (m : JObj) (f : String),
    m.lookup f = existing.lookup f →
    (preserveFields existing fields m).lookup f = existing.lookup f
  | [], _, _, h => h
  | g :: rest, m, f, h => by
      refine preserveFields_lookup_eq existing rest _ f ?_
      by_cases hgf : g = f
      · subst hgf
        cases hm : m.lookup g with
        | some v => simpa [hm] using h
        | none =>
            have he : existing.lookup g = none := by rw [← h, hm]
            simp only [hm, he]
      · cases hm : m.lookup g with
        | some v => simpa [hm] using h
        | none =>
            cases he : existing.lookup g with
            | some v =>
                simp only [hm, he]
                rw [jsAssign_lookup_ne m g f v (fun hfg => hgf hfg.symm)]
                exact h
            | none => simpa [hm, he] using h

theorem assignStructureIdStep_lookup_ne (value : JObj) (owner : Option String)
    (f : String) (h : f ≠ "structure_id") :
    (assignStructureIdStep value owner).lookup f = value.lookup f := by
  unfold assignStructureIdStep
  by_cases hn : needsStructureId value = true
  · cases owner with
    | none => simp [hn]
    | some uid =>
        by_cases hu : uid = ""
        · simp [hn, hu]
        · simp only [hn, if_true, hu, if_neg hu]
          exact jsAssign_lookup_ne value "structure_id" f _ h
  · simp [hn]

theorem fanTimerFields_ne_special (f : String) (hf : f ∈ fanTimerFields) :
    f ≠ "weave_device_id" ∧ f ≠ "structure_id" := by
  simp only [fanTimerFields, List.mem_cons, List.not_mem_nil, or_false] at hf
  rcases hf with rfl | rfl | rfl | rfl | rfl <;> exact ⟨by decide, by decide⟩

/-- C4 (preserveFanTimer modelled from the spec): for every update of the
device object, through the subscribe update branch or through the put
handler, a fan-timer field that the incoming partial value omits keeps the
prior server value, unchanged, in the merged value the handler stores; the
preservation sits after the merge and before the revision comparison, since
both step functions compare and store exactly this merged value. -/
theorem fan_timer_fields_preserved (c : Cell) (incoming : JObj)
    (weave : Option String) (owner : Option String) (now : Nat) (f : String)
    (hf : f ∈ fanTimerFields) (habs : incoming.lookup f = none) :
    (subUpdateStep c incoming weave true owner now).value.lookup f =
      (cellValue c).lookup f ∧
    (putStep c incoming weave true now).1.value.lookup f =
      (cellValue c).lookup f := by
  obtain ⟨hw, hs⟩ := fanTimerFields_ne_special f hf
  have hmerge :
      (weaveAnnotate (mergeValues (cellValue c) incoming) weave).lookup f =
        (cellValue c).lookup f := by
    rw [weaveAnnotate_lookup_ne _ _ _ hw]
    exact jsSpread_lookup_of_absent incoming (cellValue c) f habs
  have hpres :
      (preserveFanTimer (weaveAnnotate (mergeValues (cellValue c) incoming) weave)
          (cellValue c)).lookup f = (cellValue c).lookup f :=
    preserveFields_lookup_eq (cellValue c) fanTimerFields _ f hmerge
  constructor
  · show (subMergedValue c incoming weave true owner).lookup f = _
    unfold subMergedValue
    simp only [if_true]
    rw [assignStructureIdStep_lookup_ne _ _ _ hs]
    exact hpres
  · show (putMergedValue c incoming weave true).lookup f = _
    unfold putMergedValue
    simp only [if_true]
    exact hpres

theorem fan_timer_fields_preserved_witness :
    "fan_mode" ∈ fanTimerFields ∧
    (JObj.cons "away" (.jbool true) .nil).lookup "fan_mode" = none ∧
    ((subUpdateStep (some { rev := some 1, ts := some 5, value := .cons "fan_mode" (.jstr "auto") .nil })
        (.cons "away" (.jbool true) .nil) none true none 7).value.lookup "fan_mode" =
      (cellValue (some { rev := some 1, ts := some 5, value := .cons "fan_mode" (.jstr "auto") .nil })).lookup "fan_mode" ∧
     (putStep (some { rev := some 1, ts := some 5, value := .cons "fan_mode" (.jstr "auto") .nil })
        (.cons "away" (.jbool true) .nil) none true 7).1.value.lookup "fan_mode" =
      (cellValue (some { rev := some 1, ts := some 5, value := .cons "fan_mode" (.jstr "auto") .nil })).lookup "fan_mode") :=
  ⟨by decide, by decide,
   fan_timer_fields_preserved
     (some { rev := some 1, ts := some 5, value := .cons "fan_mode" (.jstr "auto") .nil })
     (.cons "away" (.jbool true) .nil) none none 7 "fan_mode" (by decide) (by decide)⟩

/-! ## C5: put revisions and responses -/

/-- Whether handlePut counts the write as a change: no prior object, or the
merged value differs from the prior server value under areValuesEqual. -/
def putChangedB (c : Cell) (m : JObj) : Bool :=
  match c with
  | some s => !(areValuesEqual s.value m)
  | none => true

theorem putStep_eq (c : Cell) (incoming : JObj) (weave : Option String)
    (isDeviceKey : Bool) (now : Nat) :
    putStep c incoming weave isDeviceKey now =
      ({ rev := some (if putChangedB c (putMergedValue c incoming weave isDeviceKey)
                      then effRev c + 1 else effRev c),
         ts := some now,
         value := putMergedValue c incoming weave isDeviceKey },
       { rev := if putChangedB c (putMergedValue c incoming weave isDeviceKey)
                then effRev c + 1 else effRev c,
         ts := now,
         value := if putChangedB c (putMergedValue c incoming weave isDeviceKey)
                  then some (putMergedValue c incoming weave isDeviceKey) else none }) := by
  cases c <;> rfl

theorem effRev_putStep_ge (c : Cell) (incoming : JObj) (weave : Option String)
    (isDeviceKey : Bool) (now : Nat) :
    effRev c ≤ effRev (some (putStep c incoming weave isDeviceKey now).1) := by
  rw [putStep_eq]
  by_cases hch : putChangedB c (putMergedValue c incoming weave isDeviceKey) = true
  · simp [effRev, hch]
  · simp [effRev, hch]

theorem runPuts_effRev_ge :
    ∀ (ops : List PutOp) (c : Cell), effRev c ≤ effRev (runPuts c ops)
  | [], _ => le_refl _
  | op :: rest, c =>
      le_trans (effRev_putStep_ge c op.incoming op.weave op.isDeviceKey op.now)
        (runPuts_effRev_ge rest _)

/-- C5: for every object processed by handlePut, the new revision is the
prior effective revision plus one when the merged value differs from the
prior server value (a missing prior object counts as differing) and the
prior revision unchanged otherwise; the response mirrors the new revision
and the write timestamp and omits its value field exactly for no-op writes;
hence the effective revision never decreases across a put, increases
strictly exactly on changing writes, and is monotone non-decreasing over any
sequence of puts. -/
theorem put_revision_response_contract (c : Cell) (incoming : JObj)
    (weave : Option String) (isDeviceKey : Bool) (now : Nat) :
    (c = none →
      (putStep c incoming weave isDeviceKey now).1.rev = some (effRev c + 1)) ∧
    (∀ s, c = some s →
      (putStep c incoming weave isDeviceKey now).1.rev =
        if areValuesEqual s.value (putMergedValue c incoming weave isDeviceKey)
        then some (effRev c) else some (effRev c + 1)) ∧
    ((putStep c incoming weave isDeviceKey now).2.rev =
      effRev (some (putStep c incoming weave isDeviceKey now).1)) ∧
    ((putStep c incoming weave isDeviceKey now).2.ts = now) ∧
    ((putStep c incoming weave isDeviceKey now).2.value = none ↔
      putChangedB c (putMergedValue c incoming weave isDeviceKey) = false) ∧
    (effRev c ≤ effRev (some (putStep c incoming weave isDeviceKey now).1)) ∧
    ((effRev c < effRev (some (putStep c incoming weave isDeviceKey now).1)) ↔
      putChangedB c (putMergedValue c incoming weave isDeviceKey) = true) ∧
    (∀ ops : List PutOp, effRev c ≤ effRev (runPuts c ops)) := by
  refine ⟨?_, ?_, ?_, ?_, ?_, effRev_putStep_ge c incoming weave isDeviceKey now, ?_,
    fun ops => runPuts_effRev_ge ops c⟩
  · intro hc
    subst hc
    rw [putStep_eq]
    simp [putChangedB]
  · intro s hs
    subst hs
    rw [putStep_eq]
    by_cases heq : areValuesEqual s.value
        (putMergedValue (some s) incoming weave isDeviceKey) = true
    · simp [putChangedB, heq]
    · simp [putChangedB, Bool.not_eq_true _ ▸ heq, heq]
  · rw [putStep_eq]
    by_cases hch : putChangedB c (putMergedValue c incoming weave isDeviceKey) = true
    · simp [effRev, hch]
    · simp [effRev, hch]
  · rw [putStep_eq]
  · rw [putStep_eq]
    by_cases hch : putChangedB c (putMergedValue c incoming weave isDeviceKey) = true
    · simp [hch]
    · simp [hch]
  · rw [putStep_eq]
    by_cases hch : putChangedB c (putMergedValue c incoming weave isDeviceKey) = true
    · simp [effRev, hch]
    · simp [effRev, hch]

theorem put_revision_response_contract_witness :
    (putStep (some { rev := some 4, ts := some 10, value := .cons "a" (.jnum 1) .nil })
        (.cons "a" (.jnum 1) .nil) none false 99).1.rev =
      if areValuesEqual (JObj.cons "a" (.jnum 1) .nil)
          (putMergedValue (some { rev := some 4, ts := some 10, value := .cons "a" (.jnum 1) .nil })
            (.cons "a" (.jnum 1) .nil) none false)
      then some (effRev (some { rev := some 4, ts := some 10, value := .cons "a" (.jnum 1) .nil }))
      else some (effRev (some { rev := some 4, ts := some 10, value := .cons "a" (.jnum 1) .nil }) + 1) :=
  (put_revision_response_contract
      (some { rev := some 4, ts := some 10, value := .cons "a" (.jnum 1) .nil })
      (.cons "a" (.jnum 1) .nil) none false 99).2.1
    { rev := some 4, ts := some 10, value := .cons "a" (.jnum 1) .nil } rfl

/-! # Control API command handler (src/server/src/routes/control/command.ts) -/

/-- A device object as the command handler sees it: numeric revision,
numeric timestamp, and a value. -/
structure DObj where
  rev : Nat
  ts : Nat
  value : JObj
deriving DecidableEq

/-- Association-list read, first match. -/
def assocGet : List (String × DObj) → String → Option DObj
  | [], _ => none
  | p :: rest, key => if p.1 = key then some p.2 else assocGet rest key

/-- Association-list write: update the entry in place or append one. -/
def assocSet : List (String × DObj) → String → DObj → List (String × DObj)
  | [], key, o => [(key, o)]
  | p :: rest, key, o => if p.1 = key then (key, o) :: rest else p :: assocSet rest key o

/-- The slice of server state the command handler touches for one serial:
the cached objects by object_key, and the device owner lookup result. -/
structure CmdStore where
  objs : List (String × DObj)
  owner : Option String
deriving DecidableEq

/-- Read an object from the store, as DeviceStateService.get does from an
already hydrated cache. -/
def CmdStore.get (st : CmdStore) (key : String) : Option DObj :=
  assocGet st.objs key

/-- Write an object, as DeviceStateService.upsert caches it. -/
def CmdStore.upsert (st : CmdStore) (key : String) (o : DObj) : CmdStore :=
  { st with objs := assocSet st.objs key o }

/-- The user value the away command writes: the prior user value with away,
away_setter, away_timestamp and manual_away_timestamp reassigned, in the
order of the source object literal. -/
def awayUserValue (v : JObj) (cmdValue : JVal) (now : Nat) : JObj :=
  jsAssign (jsAssign (jsAssign (jsAssign v
    "away" (.jbool (jsTruthy cmdValue)))
    "away_setter" (.jnum 1))
    "away_timestamp" (.jnum now))
    "manual_away_timestamp" (.jnum now)

/-- The away branch of handleCommand. The target object_key defaults to the
shared object of the serial when the command names no explicit object;
auto_away receives 2 for a truthy command value and 0 otherwise; when the
device has an owner with a non-empty identifier and a user state object
exists under the stripped identifier, the away fields of that user object
are rewritten and stored first; the target object is then stored with its
revision bumped by one and the server clock. The store models an already
hydrated cache, so the hydrate-and-retry branch of the source collapses
into the single lookup, and a user object value is always an object and
hence truthy. -/
def handleAwayCommand (st : CmdStore) (serial : String) (cmdValue : JVal)
    (explicitObject : Option String) (now : Nat) : Except String CmdStore :=
  let objectKey :=
    match explicitObject with
    | some o => o
    | none => "shared." ++ serial
  match st.get objectKey with
  | none => .error ("Object not found: " ++ objectKey)
  | some currentObj =>
      let updatedValue := jsAssign currentObj.value "auto_away"
        (.jnum (if jsTruthy cmdValue then 2 else 0))
      let st1 :=
        match st.owner with
        | some uid =>
            if uid = "" then st
            else
              let userKey := "user." ++ stripUserTag uid
              match st.get userKey with
              | some userState =>
                  st.upsert userKey
                    { rev := userState.rev + 1, ts := now,
                      value := awayUserValue userState.value cmdValue now }
              | none => st
        | none => st
      .ok (st1.upsert objectKey
        { rev := currentObj.rev + 1, ts := now, value := updatedValue })

theorem assocGet_set_self :
    ∀ (l : List (String × DObj)) (key : String) (o : DObj),
    assocGet (assocSet l key o) key = some o
  | [], key, o => by simp [assocSet, assocGet]
  | p :: rest, key, o => by
      by_cases h : p.1 = key
      · simp [assocSet, assocGet, h]
      · simp [assocSet, assocGet, h, assocGet_set_self rest key o]

theorem assocGet_set_ne :
    ∀ (l : List (String × DObj)) (key k : String) (o : DObj), k ≠ key →
    assocGet (assocSet l key o) k = assocGet l k
  | [], key, k, _, h => by
      simp only [assocSet, assocGet]
      rw [if_neg (fun he : key = k => h he.symm)]
  | p :: rest, key, k, o, h => by
      by_cases hp : p.1 = key
      · have hpk : ¬ p.1 = k := by
          rw [hp]
          exact fun he => h he.symm
        simp only [assocSet, if_pos hp, assocGet]
        rw [if_neg (fun he : key = k => h he.symm), if_neg hpk]
      · simp only [assocSet, if_neg hp, assocGet]
        by_cases hk : p.1 = k
        · rw [if_pos hk, if_pos hk]
        · rw [if_neg hk, if_neg hk, assocGet_set_ne rest key k o h]

theorem shared_key_ne_user_key (a b : String) :
    ("shared." ++ a) ≠ ("user." ++ b) := by
  intro h
  have hd := congrArg String.data h
  simp [String.data_append] at hd

/-! ## C7: which object the away command writes -/

/-- The concrete store for the away-command theorems: shared, device and
user objects all present, device owned. -/
def awayCommandStore : CmdStore :=
  { objs := [("shared.S", { rev := 3, ts := 100, value := .nil }),
             ("device.S", { rev := 7, ts := 100, value := .nil }),
             ("user.abc", { rev := 1, ts := 50, value := .nil })],
    owner := some "user_abc" }

/-- C7 counterexample. An away command with no explicit object, on a store
where the shared, device and user objects of serial S all exist and the
device is owned: afterwards the device object is unchanged, with no
auto_away field, while the auto_away write went into the shared object.
This refutes the claim that the handler writes auto_away into the device
object. -/
theorem away_command_counterexample :
    ((handleAwayCommand awayCommandStore "S" (.jbool true) none 200).toOption.bind
      (fun s2 => s2.get "device.S")) = some { rev := 7, ts := 100, value := .nil } ∧
    ((handleAwayCommand awayCommandStore "S" (.jbool true) none 200).toOption.bind
      (fun s2 => s2.get "shared.S")) =
      some { rev := 4, ts := 200, value := .cons "auto_away" (.jnum 2) .nil } := by
  refine ⟨rfl, rfl⟩

/-- C7 amended: an away command that names no explicit object writes
auto_away (2 for a truthy command value, 0 for a falsy one) into the shared
object of the serial rather than the device object, bumping its revision and
stamping the server clock; when the device has an owner with a non-empty
identifier and a user state object exists under the stripped identifier,
that user object additionally has its away, away_setter, away_timestamp and
manual_away_timestamp fields updated; every other object, the device object
included, is untouched. -/
theorem away_command_writes_shared_and_user (st : CmdStore) (serial uid : String)
    (cmdValue : JVal) (now : Nat) (obj us : DObj)
    (hobj : st.get ("shared." ++ serial) = some obj)
    (howner : st.owner = some uid) (huid : uid ≠ "")
    (hus : st.get ("user." ++ stripUserTag uid) = some us) :
    ((handleAwayCommand st serial cmdValue none now).toOption.bind
        (fun s2 => s2.get ("shared." ++ serial))) =
      some { rev := obj.rev + 1, ts := now,
             value := jsAssign obj.value "auto_away"
               (.jnum (if jsTruthy cmdValue then 2 else 0)) } ∧
    ((handleAwayCommand st serial cmdValue none now).toOption.bind
        (fun s2 => s2.get ("user." ++ stripUserTag uid))) =
      some { rev := us.rev + 1, ts := now,
             value := awayUserValue us.value cmdValue now } ∧
    (∀ k, k ≠ "shared." ++ serial → k ≠ "user." ++ stripUserTag uid →
      ((handleAwayCommand st serial cmdValue none now).toOption.bind
        (fun s2 => s2.get k)) = st.get k) := by
  have hneq := shared_key_ne_user_key serial (stripUserTag uid)
  have hrun : handleAwayCommand st serial cmdValue none now =
      .ok ((st.upsert ("user." ++ stripUserTag uid)
              { rev := us.rev + 1, ts := now,
                value := awayUserValue us.value cmdValue now }).upsert
            ("shared." ++ serial)
            { rev := obj.rev + 1, ts := now,
              value := jsAssign obj.value "auto_away"
                (.jnum (if jsTruthy cmdValue then 2 else 0)) }) := by
    unfold handleAwayCommand
    simp only [hobj, howner, hus, if_neg huid]
  refine ⟨?_, ?_, ?_⟩
  · rw [hrun]
    simp only [Except.toOption, Option.bind, CmdStore.get, CmdStore.upsert]
    exact assocGet_set_self _ _ _
  · rw [hrun]
    simp only [Except.toOption, Option.bind, CmdStore.get, CmdStore.upsert]
    rw [assocGet_set_ne _ _ _ _ (Ne.symm hneq)]
    exact assocGet_set_self _ _ _
  · intro k hk1 hk2
    rw [hrun]
    simp only [Except.toOption, Option.bind, CmdStore.get, CmdStore.upsert]
    rw [assocGet_set_ne _ _ _ _ hk1, assocGet_set_ne _ _ _ _ hk2]

theorem away_command_writes_shared_and_user_witness :
    ((handleAwayCommand awayCommandStore "S" (.jbool true) none 200).toOption.bind
        (fun s2 => s2.get ("shared." ++ "S"))) =
      some { rev := 3 + 1, ts := 200,
             value := jsAssign JObj.nil "auto_away"
               (.jnum (if jsTruthy (.jbool true) then 2 else 0)) } ∧
    ((handleAwayCommand awayCommandStore "S" (.jbool true) none 200).toOption.bind
        (fun s2 => s2.get ("user." ++ stripUserTag "user_abc"))) =
      some { rev := 1 + 1, ts := 200,
             value := awayUserValue JObj.nil (.jbool true) 200 } :=
  ⟨(away_command_writes_shared_and_user awayCommandStore "S" "user_abc"
      (.jbool true) 200 { rev := 3, ts := 100, value := .nil }
      { rev := 1, ts := 50, value := .nil }
      (by decide) rfl (by decide) (by decide)).1,
   (away_command_writes_shared_and_user awayCommandStore "S" "user_abc"
      (.jbool true) 200 { rev := 3, ts := 100, value := .nil }
      { rev := 1, ts := 50, value := .nil }
      (by decide) rfl (by decide) (by decide)).2.1⟩

/-! # WeatherService (src/server/src/services/WeatherService.ts) -/

/-- Split a character list at each comma, as the query parser splits the
query string. -/
def splitOnComma : List Char → List (List Char)
  | [] => [[]]
  | ch :: rest =>
      match splitOnComma rest with
      | h :: t => if ch == ',' then [] :: h :: t else (ch :: h) :: t
      | [] => if ch == ',' then [[], []] else [[ch]]

/-- Whitespace for trimming, as the trim of the source strips it from both
ends. -/
def isWsChar (ch : Char) : Bool := ch.toNat ≤ 32

/-- Trim whitespace from both ends of a character list. -/
def trimChars (l : List Char) : List Char :=
  ((l.dropWhile isWsChar).reverse.dropWhile isWsChar).reverse

/-- The outcome of parseQuery: a postal code and country for a two-part
query, or the ip-query flag. -/
structure ParsedQuery where
  postalCode : Option String
  country : Option String
  isIpQuery : Bool
deriving DecidableEq

/-- parseQuery from WeatherService: queries starting with ipv4 or ipv6 are
ip queries; otherwise a query of exactly two comma-separated parts yields
the trimmed postal code and country, and anything else yields neither. -/
def parseQuery (query : String) : ParsedQuery :=
  if charsStartWith "ipv4".data query.data || charsStartWith "ipv6".data query.data then
    { postalCode := none, country := none, isIpQuery := true }
  else
    match splitOnComma query.data with
    | [p0, p1] =>
        { postalCode := some (String.mk (trimChars p0)),
          country := some (String.mk (trimChars p1)),
          isIpQuery := false }
    | _ => { postalCode := none, country := none, isIpQuery := false }

/-- A weather cache entry: fetch time and payload. -/
structure WeatherEntry where
  fetchedAt : Nat
  payload : JVal
deriving DecidableEq

/-- The weather cache of the state store, keyed by postal code and country. -/
abbrev WCache := List ((String × String) × WeatherEntry)

/-- Cache read. -/
def wcGet : WCache → String → String → Option WeatherEntry
  | [], _, _ => none
  | e :: rest, p, c => if e.1.1 = p ∧ e.1.2 = c then some e.2 else wcGet rest p c

/-- Cache upsert. -/
def wcSet : WCache → String → String → WeatherEntry → WCache
  | [], p, c, w => [((p, c), w)]
  | e :: rest, p, c, w =>
      if e.1.1 = p ∧ e.1.2 = c then ((p, c), w) :: rest else e :: wcSet rest p c w

/-- getCachedWeather from WeatherService: a cached entry is returned unless
its age exceeds the ttl. -/
def getCachedWeather (ttl : Nat) (cache : WCache) (now : Nat)
    (postal country : String) : Option WeatherEntry :=
  match wcGet cache postal country with
  | none => none
  | some e => if ttl < now - e.fetchedAt then none else some e

/-- JavaScript truthiness of the optional postal code and country strings:
absent or empty is falsy. -/
def optStrTruthy : Option String → Bool
  | some s => !(s == "")
  | none => false

/-- The outcome of one getWeather call: the returned payload, the cache
afterwards, and how many upstream fetches the call performed. -/
structure WeatherResult where
  result : Option JVal
  cache : WCache
  fetches : Nat
deriving DecidableEq

/-- getWeather from WeatherService, with the upstream fetch given as an
oracle argument holding the parsed body a fetch would deliver (none for a
failed, non-200 or unparseable response). Non-ip queries with a truthy
postal code and country consult the cache and return a fresh entry without
fetching; otherwise the upstream is fetched once, and the result is stored
back only for those cache-eligible queries. -/
def getWeather (ttl : Nat) (cache : WCache) (now : Nat) (query : String)
    (fetchResult : Option JVal) : WeatherResult :=
  let parsed := parseQuery query
  let eligible := !parsed.isIpQuery && optStrTruthy parsed.postalCode &&
    optStrTruthy parsed.country
  let cached :=
    if eligible then
      getCachedWeather ttl cache now (parsed.postalCode.getD "") (parsed.country.getD "")
    else none
  match cached with
  | some e => { result := some e.payload, cache := cache, fetches := 0 }
  | none =>
      match fetchResult with
      | none => { result := none, cache := cache, fetches := 1 }
      | some d =>
          { result := some d,
            cache :=
              if eligible then
                wcSet cache (parsed.postalCode.getD "") (parsed.country.getD "")
                  { fetchedAt := now, payload := d }
              else cache,
            fetches := 1 }

theorem wcGet_set_self (cache : WCache) (p c : String) (w : WeatherEntry) :
    wcGet (wcSet cache p c w) p c = some w := by
  induction cache with
  | nil => simp [wcSet, wcGet]
  | cons e rest ih =>
      by_cases h : e.1.1 = p ∧ e.1.2 = c
      · simp [wcSet, wcGet, h]
      · simp [wcSet, wcGet, h, ih]

/-! ## C9: the weather cache contract -/

theorem getWeather_eligible (ttl : Nat) (cache : WCache) (now : Nat)
    (query : String) (fetchResult : Option JVal) (p c : String)
    (hq : parseQuery query =
      { postalCode := some p, country := some c, isIpQuery := false })
    (hp : p ≠ "") (hc : c ≠ "") :
    getWeather ttl cache now query fetchResult =
      match getCachedWeather ttl cache now p c with
      | some e => { result := some e.payload, cache := cache, fetches := 0 }
      | none =>
          match fetchResult with
          | none => { result := none, cache := cache, fetches := 1 }
          | some d =>
              { result := some d,
                cache := wcSet cache p c { fetchedAt := now, payload := d },
                fetches := 1 } := by
  unfold getWeather
  rw [hq]
  have h1 : optStrTruthy (some p) = true := by simp [optStrTruthy, hp]
  have h2 : optStrTruthy (some c) = true := by simp [optStrTruthy, hc]
  simp only [h1, h2, Bool.not_false, Bool.and_true, Bool.true_and, if_true, Option.getD]

theorem getCachedWeather_hit (ttl : Nat) (cache : WCache) (now : Nat)
    (p c : String) (e : WeatherEntry) (h : wcGet cache p c = some e)
    (hf : now - e.fetchedAt ≤ ttl) :
    getCachedWeather ttl cache now p c = some e := by
  unfold getCachedWeather
  rw [h]
  show (if ttl < now - e.fetchedAt then none else some e : Option WeatherEntry) = some e
  rw [if_neg (by omega)]

theorem getCachedWeather_miss (ttl now : Nat) (cache : WCache) (p c : String)
    (h : wcGet cache p c = none) :
    getCachedWeather ttl cache now p c = none := by
  unfold getCachedWeather
  rw [h]

/-- C9: for every non-ip weather query with a truthy postal code and
country, a cached entry whose age is within the ttl is returned as is, with
no upstream fetch and the cache untouched; consequently two consecutive
calls for the same postal code and country within the ttl perform exactly
one upstream fetch, the first one, when the first call misses the cache and
its fetch succeeds; and an ip-form query never consults nor populates the
cache, returning the fetch outcome directly. -/
theorem weather_cache_contract (ttl : Nat) (cache : WCache) (now : Nat)
    (query : String) (fetchResult : Option JVal) (p c : String) (e : WeatherEntry) :
    (parseQuery query = { postalCode := some p, country := some c, isIpQuery := false } →
      p ≠ "" → c ≠ "" → wcGet cache p c = some e → now - e.fetchedAt ≤ ttl →
      getWeather ttl cache now query fetchResult =
        { result := some e.payload, cache := cache, fetches := 0 }) ∧
    (parseQuery query = { postalCode := some p, country := some c, isIpQuery := false } →
      p ≠ "" → c ≠ "" → wcGet cache p c = none →
      ∀ (d : JVal) (t2 : Nat) (f2 : Option JVal), t2 - now ≤ ttl →
      (getWeather ttl cache now query (some d)).fetches = 1 ∧
      (getWeather ttl (getWeather ttl cache now query (some d)).cache t2 query f2).fetches = 0) ∧
    (parseQuery query = { postalCode := none, country := none, isIpQuery := true } →
      getWeather ttl cache now query fetchResult =
        { result := fetchResult, cache := cache, fetches := 1 }) := by
  refine ⟨?_, ?_, ?_⟩
  · intro hq hp hc hcache hfresh
    rw [getWeather_eligible ttl cache now query fetchResult p c hq hp hc]
    rw [getCachedWeather_hit ttl cache now p c e hcache hfresh]
  · intro hq hp hc hcache d t2 f2 hwithin
    have hfirst : getWeather ttl cache now query (some d) =
        { result := some d,
          cache := wcSet cache p c { fetchedAt := now, payload := d },
          fetches := 1 } := by
      rw [getWeather_eligible ttl cache now query (some d) p c hq hp hc]
      rw [getCachedWeather_miss ttl now cache p c hcache]
    refine ⟨by rw [hfirst], ?_⟩
    rw [hfirst]
    rw [getWeather_eligible ttl _ t2 query f2 p c hq hp hc]
    rw [getCachedWeather_hit ttl _ t2 p c { fetchedAt := now, payload := d }
      (wcGet_set_self cache p c _) hwithin]
  · intro hq
    unfold getWeather
    rw [hq]
    cases fetchResult <;> rfl

theorem weather_cache_contract_witness :
    (parseQuery "94107,US" =
      { postalCode := some "94107", country := some "US", isIpQuery := false }) ∧
    ("94107" : String) ≠ "" ∧ ("US" : String) ≠ "" ∧
    wcGet [] "94107" "US" = none ∧ ((1200 : Nat) - 1000 ≤ 600000) ∧
    ((getWeather 600000 [] 1000 "94107,US" (some (.jnum 15))).fetches = 1 ∧
     (getWeather 600000 (getWeather 600000 [] 1000 "94107,US" (some (.jnum 15))).cache
        1200 "94107,US" none).fetches = 0) :=
  ⟨by decide, by decide, by decide, by decide, by decide,
   (weather_cache_contract 600000 [] 1000 "94107,US" none "94107" "US"
      { fetchedAt := 0, payload := .jnull }).2.1
     (by decide) (by decide) (by decide) (by decide) (.jnum 15) 1200 none (by decide)⟩

/-! # Pairing-code claim (claimEntryKey in src/server/convex/users.ts) -/

/-- Uppercase one character, as toUpperCase does for the code alphabet. -/
def charUpper (ch : Char) : Char :=
  if 97 ≤ ch.toNat ∧ ch.toNat ≤ 122 then Char.ofNat (ch.toNat - 32) else ch

/-- Uppercase a code string. -/
def strUpper (s : String) : String := String.mk (s.data.map charUpper)

/-- An entryKeys row. -/
structure EntryKeyRow where
  code : String
  serial : String
  createdAt : Nat
  expiresAt : Nat
  claimedBy : Option String
  claimedAt : Option Nat
deriving DecidableEq

/-- A deviceOwners row; createdAt is optional because the source checks its
truthiness and backfills it. -/
structure OwnerRow where
  serial : String
  userId : String
  createdAt : Option Nat
deriving DecidableEq

/-- A states row: one device object in the document store. -/
structure StateRow where
  serial : String
  key : String
  rev : Nat
  ts : Nat
  value : JObj
  updatedAt : Nat
deriving DecidableEq

/-- A users row. -/
structure UserRow where
  clerkId : String
  email : String
deriving DecidableEq

/-- The document store slice claimEntryKey touches. -/
structure Db where
  entryKeys : List EntryKeyRow
  owners : List OwnerRow
  states : List StateRow
  users : List UserRow
deriving DecidableEq

/-- First entryKeys row with the code. -/
def findEntryByCode : List EntryKeyRow → String → Option EntryKeyRow
  | [], _ => none
  | e :: rest, code => if e.code = code then some e else findEntryByCode rest code

/-- Patch the found entry as claimed by the user at the clock. -/
def setEntryClaimed : List EntryKeyRow → String → String → Nat → List EntryKeyRow
  | [], _, _, _ => []
  | e :: rest, code, uid, now =>
      if e.code = code then { e with claimedBy := some uid, claimedAt := some now } :: rest
      else e :: setEntryClaimed rest code uid now

/-- First deviceOwners row for the serial. -/
def findOwner : List OwnerRow → String → Option OwnerRow
  | [], _ => none
  | o :: rest, serial => if o.serial = serial then some o else findOwner rest serial

/-- Backfill createdAt on the found owner row. -/
def setOwnerCreated : List OwnerRow → String → Nat → List OwnerRow
  | [], _, _ => []
  | o :: rest, serial, now =>
      if o.serial = serial then { o with createdAt := some now } :: rest
      else o :: setOwnerCreated rest serial now

/-- First states row under the serial and object_key. -/
def findState : List StateRow → String → String → Option StateRow
  | [], _, _ => none
  | r :: rest, s, k =>
      if r.serial = s ∧ r.key = k then some r else findState rest s k

/-- Patch the found states row with a new value, revision and clock. -/
def setStateValue : List StateRow → String → String → JObj → Nat → Nat → List StateRow
  | [], _, _, _, _, _ => []
  | r :: rest, s, k, v, rev, now =>
      if r.serial = s ∧ r.key = k then
        { r with value := v, rev := rev, ts := now, updatedAt := now } :: rest
      else r :: setStateValue rest s k v rev now

/-- First users row with the clerk identifier. -/
def findUser : List UserRow → String → Option UserRow
  | [], _ => none
  | u :: rest, cid => if u.clerkId = cid then some u else findUser rest cid

/-- JavaScript truthiness of an optional created-at number: absent or zero
is falsy. -/
def ownerCreatedFalsy : Option Nat → Bool
  | none => true
  | some n => n == 0

/-- JavaScript nullish coalescing on a field read: undefined or null takes
the default. -/
def jNullish (v : Option JVal) (dflt : JVal) : JVal :=
  match v with
  | none => dflt
  | some .jnull => dflt
  | some w => w

/-- Read a field expected to hold an array, with the or-empty-array default
the source applies; array-valued fields the claim flow writes are always
arrays. -/
def asArr : Option JVal → JArr
  | some (.jarr xs) => xs
  | _ => .nil

/-- Whether the array contains the string. -/
def JArr.containsStr : JArr → String → Bool
  | .nil, _ => false
  | .cons v tl, s => v == .jstr s || tl.containsStr s

/-- Whether some member object of the array has its structure field equal
to the identifier, as the membership check of the source does. -/
def JArr.someStructureEq : JArr → String → Bool
  | .nil, _ => false
  | .cons v tl, s =>
      (match v with
       | .jobj fs => fs.lookup "structure" == some (.jstr s)
       | _ => false) || tl.someStructureEq s

/-- Append one element. -/
def JArr.push : JArr → JVal → JArr
  | .nil, v => .cons v .nil
  | .cons h tl, v => .cons h (tl.push v)

/-- The pairing-confirm dialog value. -/
def dialogValue : JObj :=
  .cons "dialog_data" (.jstr "")
    (.cons "dialog_id" (.jstr "confirm-pairing") .nil)

/-- The shared shape of the five ensure steps of claimEntryKey: look the
object up; insert the seed row when it is missing; otherwise either leave
the states alone or patch the found row with a new value and revision, as
the step decides from the found row. -/
def ensureWith (states : List StateRow) (serial key : String) (missingRow : StateRow)
    (onExisting : StateRow → Option (JObj × Nat)) (now : Nat) : List StateRow :=
  match findState states serial key with
  | none => states ++ [missingRow]
  | some cur =>
      match onExisting cur with
      | some (v, rev) => setStateValue states serial key v rev now
      | none => states

/-- Ensure the device_alert_dialog object exists. -/
def ensureAlertDialog (serial : String) (now : Nat) (states : List StateRow) :
    List StateRow :=
  ensureWith states serial ("device_alert_dialog." ++ serial)
    { serial := serial, key := "device_alert_dialog." ++ serial,
      rev := 1, ts := now, value := dialogValue, updatedAt := now }
    (fun _ => none) now

/-- Ensure the device object exists and carries a truthy structure_id,
backfilling the stripped user identifier otherwise. -/
def ensureDevice (serial uid : String) (now : Nat) (states : List StateRow) :
    List StateRow :=
  ensureWith states serial ("device." ++ serial)
    { serial := serial, key := "device." ++ serial, rev := 1, ts := now,
      value := .cons "structure_id" (.jstr uid) .nil, updatedAt := now }
    (fun cur =>
      match cur.value.lookup "structure_id" with
      | some v =>
          if jsTruthy v then none
          else some (jsAssign cur.value "structure_id" (.jstr uid), cur.rev + 1)
      | none => some (jsAssign cur.value "structure_id" (.jstr uid), cur.rev + 1))
    now

/-- The freshly seeded structure value, fields in source insertion order. -/
def structureValue (uid serial tz : String) (now : Nat) : JObj :=
  .cons "time_zone" (.jstr tz)
    (.cons "postal_code" (.jstr "")
      (.cons "country_code" (.jstr "US")
        (.cons "address_lines" (.jarr .nil)
          (.cons "city" (.jstr "")
            (.cons "state" (.jstr "")
              (.cons "user" (.jstr ("user." ++ uid))
                (.cons "devices" (.jarr (.cons (.jstr ("device." ++ serial)) .nil))
                  (.cons "away" (.jbool false)
                    (.cons "vacation_mode" (.jbool false)
                      (.cons "manual_away_timestamp" (.jnum 0)
                        (.cons "away_timestamp" (.jnum now) .nil)))))))))))

/-- Ensure the structure object exists and lists the device key. -/
def ensureStructure (serial uid tz : String) (now : Nat) (states : List StateRow) :
    List StateRow :=
  ensureWith states serial ("structure." ++ uid)
    { serial := serial, key := "structure." ++ uid, rev := 1, ts := now,
      value := structureValue uid serial tz now, updatedAt := now }
    (fun cur =>
      let devices := asArr (cur.value.lookup "devices")
      if devices.containsStr ("device." ++ serial) then none
      else some (jsAssign cur.value "devices"
        (.jarr (devices.push (.jstr ("device." ++ serial)))), cur.rev + 1))
    now

/-- Ensure the link object exists and points at the structure; an existing
link with a different structure has its whole value replaced. -/
def ensureLink (serial uid : String) (now : Nat) (states : List StateRow) :
    List StateRow :=
  ensureWith states serial ("link." ++ serial)
    { serial := serial, key := "link." ++ serial, rev := 1, ts := now,
      value := .cons "structure" (.jstr ("structure." ++ uid)) .nil, updatedAt := now }
    (fun cur =>
      if cur.value.lookup "structure" == some (.jstr ("structure." ++ uid)) then none
      else some (.cons "structure" (.jstr ("structure." ++ uid)) .nil, cur.rev + 1))
    now

/-- One structure membership entry. -/
def membershipValue (structureId : String) : JVal :=
  .jobj (.cons "structure" (.jstr structureId)
    (.cons "roles" (.jarr (.cons (.jstr "owner") .nil)) .nil))

/-- The freshly seeded user value, fields in source insertion order. -/
def newUserValue (uid email : String) (now : Nat) : JObj :=
  .cons "acknowledged_onboarding_screens" (.jarr (.cons (.jstr "rcs") .nil))
    (.cons "email" (.jstr email)
      (.cons "name" (.jstr "")
        (.cons "obsidian_version" (.jstr "5.58rc3")
          (.cons "profile_image_url" (.jstr "")
            (.cons "short_name" (.jstr "")
              (.cons "structures" (.jarr (.cons (.jstr ("structure." ++ uid)) .nil))
                (.cons "structure_memberships"
                    (.jarr (.cons (membershipValue ("structure." ++ uid)) .nil))
                  (.cons "away" (.jbool false)
                    (.cons "away_timestamp" (.jnum now)
                      (.cons "away_setter" (.jnum 1)
                        (.cons "vacation_mode" (.jbool false)
                          (.cons "manual_away_timestamp" (.jnum 0) .nil))))))))))))

/-- Ensure the user state object exists, carries this structure in its
structures and memberships, and has the away fields. -/
def ensureUserState (serial uid email : String) (now : Nat)
    (states : List StateRow) : List StateRow :=
  ensureWith states serial ("user." ++ uid)
    { serial := serial, key := "user." ++ uid, rev := 1, ts := now,
      value := newUserValue uid email now, updatedAt := now }
    (fun cur =>
      let structureId := "structure." ++ uid
      let structures := asArr (cur.value.lookup "structures")
      let ms := asArr (cur.value.lookup "structure_memberships")
      let hasStructure := structures.containsStr structureId
      let hasMembership := ms.someStructureEq structureId
      if !hasStructure || !hasMembership || !(cur.value.hasKey "away") then
        some (jsAssign
          (jsAssign
            (jsAssign
              (jsAssign
                (jsAssign
                  (jsAssign
                    (jsAssign cur.value "structures"
                      (.jarr (if hasStructure then structures
                              else structures.push (.jstr structureId))))
                    "structure_memberships"
                    (.jarr (if hasMembership then ms
                            else ms.push (membershipValue structureId))))
                  "away" (jNullish (cur.value.lookup "away") (.jbool false)))
                "away_timestamp" (jNullish (cur.value.lookup "away_timestamp") (.jnum now)))
              "away_setter" (jNullish (cur.value.lookup "away_setter") (.jnum 1)))
            "vacation_mode" (jNullish (cur.value.lookup "vacation_mode") (.jbool false)))
          "manual_away_timestamp"
          (jNullish (cur.value.lookup "manual_away_timestamp") (.jnum 0)),
          cur.rev + 1)
      else none)
    now

/-- The write phase of claimEntryKey, after all rejection checks have
passed: mark the entry claimed and ensure the five pairing objects. The
source performs no further throws past its checks, so this phase is total;
a thrown check in the source rolls the whole Convex mutation back, which
the model renders by returning the error with no store change. -/
def materialize (db : Db) (entry : EntryKeyRow) (userId : String) (now : Nat)
    (tz : String) : Db :=
  let email :=
    match findUser db.users userId with
    | some u => u.email
    | none => ""
  let uid := stripUserTag userId
  let serial := entry.serial
  let st1 := ensureAlertDialog serial now db.states
  let st2 := ensureDevice serial uid now st1
  let st3 := ensureStructure serial uid tz now st2
  let st4 := ensureLink serial uid now st3
  let st5 := ensureUserState serial uid email now st4
  { db with entryKeys := setEntryClaimed db.entryKeys entry.code userId now,
            states := st5 }

/-- claimEntryKey from src/server/convex/users.ts, with the wall clock and
the host time zone passed in. The code is uppercased and looked up; the
claim is rejected when the code is unknown, claimed by a truthy different
user, expired, or when the device already belongs to a different account;
otherwise ownership is created or its createdAt backfilled, and the pairing
objects are materialized. -/
def claimEntryKey (db : Db) (code0 userId : String) (now : Nat) (tz : String) :
    Except String (Db × String) :=
  match findEntryByCode db.entryKeys (strUpper code0) with
  | none => .error "Invalid entry key"
  | some entry =>
      if (match entry.claimedBy with
          | some cb => !(cb == "") && !(cb == userId)
          | none => false) then .error "Entry key already claimed"
      else if entry.expiresAt < now then .error "Entry key expired"
      else
        match findOwner db.owners entry.serial with
        | some ow =>
            if ow.userId ≠ userId then .error "Device already linked to another account"
            else
              .ok (materialize
                    { db with owners :=
                        if ownerCreatedFalsy ow.createdAt then
                          setOwnerCreated db.owners entry.serial now
                        else db.owners }
                    entry userId now tz,
                   entry.serial)
        | none =>
            .ok (materialize
                  { db with owners :=
                      db.owners ++ [{ serial := entry.serial, userId := userId,
                                      createdAt := some now }] }
                  entry userId now tz,
                 entry.serial)

/-! ## C8: what a successful or failed claim does -/

theorem findState_append :
    ∀ (l1 l2 : List StateRow) (s k : String),
    findState (l1 ++ l2) s k =
      match findState l1 s k with
      | some r => some r
      | none => findState l2 s k
  | [], _, _, _ => rfl
  | r :: rest, l2, s, k => by
      by_cases h : r.serial = s ∧ r.key = k
      · simp [findState, h]
      · simp [findState, h, findState_append rest l2 s k]

theorem findState_set_isSome :
    ∀ (l : List StateRow) (s k : String) (v : JObj) (rev now : Nat) (s2 k2 : String),
    (findState (setStateValue l s k v rev now) s2 k2).isSome =
      (findState l s2 k2).isSome
  | [], _, _, _, _, _, _, _ => rfl
  | r :: rest, s, k, v, rev, now, s2, k2 => by
      by_cases h1 : r.serial = s ∧ r.key = k
      · obtain ⟨hs1, hk1⟩ := h1
        subst hs1
        subst hk1
        simp only [setStateValue,
          if_pos (⟨rfl, rfl⟩ : r.serial = r.serial ∧ r.key = r.key), findState]
        by_cases h2 : r.serial = s2 ∧ r.key = k2
        · simp [h2]
        · simp [h2]
      · simp only [setStateValue, if_neg h1, findState]
        by_cases h2 : r.serial = s2 ∧ r.key = k2
        · simp [h2]
        · simp [h2, findState_set_isSome rest s k v rev now s2 k2]

theorem ensureWith_isSome_self (states : List StateRow) (serial key : String)
    (row : StateRow) (f : StateRow → Option (JObj × Nat)) (now : Nat)
    (hs : row.serial = serial) (hk : row.key = key) :
    (findState (ensureWith states serial key row f now) serial key).isSome = true := by
  unfold ensureWith
  cases hf : findState states serial key with
  | none =>
      rw [findState_append, hf]
      simp [findState, hs, hk]
  | some cur =>
      show (findState
          (match f cur with
           | some (v, rev) => setStateValue states serial key v rev now
           | none => states) serial key).isSome = true
      cases hoe : f cur with
      | none => simp [hf]
      | some p =>
          obtain ⟨v, rev⟩ := p
          rw [findState_set_isSome]
          simp [hf]

theorem ensureWith_isSome_mono (states : List StateRow) (serial key : String)
    (row : StateRow) (f : StateRow → Option (JObj × Nat)) (now : Nat)
    (s2 k2 : String) (h : (findState states s2 k2).isSome = true) :
    (findState (ensureWith states serial key row f now) s2 k2).isSome = true := by
  unfold ensureWith
  cases hf : findState states serial key with
  | none =>
      rw [findState_append]
      cases h2 : findState states s2 k2 with
      | none => rw [h2] at h; simp at h
      | some r => rfl
  | some cur =>
      show (findState
          (match f cur with
           | some (v, rev) => setStateValue states serial key v rev now
           | none => states) s2 k2).isSome = true
      cases hoe : f cur with
      | none => exact h
      | some p =>
          obtain ⟨v, rev⟩ := p
          rw [findState_set_isSome]
          exact h

theorem findOwner_append :
    ∀ (l1 l2 : List OwnerRow) (s : String),
    findOwner (l1 ++ l2) s =
      match findOwner l1 s with
      | some o => some o
      | none => findOwner l2 s
  | [], _, _ => rfl
  | o :: rest, l2, s => by
      by_cases h : o.serial = s
      · simp [findOwner, h]
      · simp [findOwner, h, findOwner_append rest l2 s]

theorem findOwner_setCreated :
    ∀ (l : List OwnerRow) (s : String) (now : Nat),
    findOwner (setOwnerCreated l s now) s =
      (findOwner l s).map (fun o => { o with createdAt := some now })
  | [], _, _ => rfl
  | o :: rest, s, now => by
      by_cases h : o.serial = s
      · simp [setOwnerCreated, findOwner, h]
      · simp [setOwnerCreated, findOwner, h, findOwner_setCreated rest s now]

theorem materialize_has_objects (db : Db) (entry : EntryKeyRow) (userId : String)
    (now : Nat) (tz : String) :
    (findState (materialize db entry userId now tz).states entry.serial
      ("device_alert_dialog." ++ entry.serial)).isSome = true ∧
    (findState (materialize db entry userId now tz).states entry.serial
      ("device." ++ entry.serial)).isSome = true ∧
    (findState (materialize db entry userId now tz).states entry.serial
      ("structure." ++ stripUserTag userId)).isSome = true ∧
    (findState (materialize db entry userId now tz).states entry.serial
      ("link." ++ entry.serial)).isSome = true ∧
    (findState (materialize db entry userId now tz).states entry.serial
      ("user." ++ stripUserTag userId)).isSome = true := by
  unfold materialize ensureUserState ensureLink ensureStructure ensureDevice ensureAlertDialog
  refine ⟨?_, ?_, ?_, ?_, ?_⟩
  · apply ensureWith_isSome_mono
    apply ensureWith_isSome_mono
    apply ensureWith_isSome_mono
    apply ensureWith_isSome_mono
    exact ensureWith_isSome_self _ _ _ _ _ _ rfl rfl
  · apply ensureWith_isSome_mono
    apply ensureWith_isSome_mono
    apply ensureWith_isSome_mono
    exact ensureWith_isSome_self _ _ _ _ _ _ rfl rfl
  · apply ensureWith_isSome_mono
    apply ensureWith_isSome_mono
    exact ensureWith_isSome_self _ _ _ _ _ _ rfl rfl
  · apply ensureWith_isSome_mono
    exact ensureWith_isSome_self _ _ _ _ _ _ rfl rfl
  · exact ensureWith_isSome_self _ _ _ _ _ _ rfl rfl

theorem materialize_owners (db : Db) (entry : EntryKeyRow) (userId : String)
    (now : Nat) (tz : String) :
    (materialize db entry userId now tz).owners = db.owners := rfl

theorem claimEntryKey_ok_inv (db : Db) (code0 userId : String) (now : Nat)
    (tz : String) (db2 : Db) (serial : String)
    (h : claimEntryKey db code0 userId now tz = .ok (db2, serial)) :
    ∃ entry db1, findEntryByCode db.entryKeys (strUpper code0) = some entry ∧
      serial = entry.serial ∧
      db2 = materialize db1 entry userId now tz ∧
      (∃ ow2, findOwner db1.owners entry.serial = some ow2 ∧ ow2.userId = userId) := by
  unfold claimEntryKey at h
  cases hentry : findEntryByCode db.entryKeys (strUpper code0) with
  | none => rw [hentry] at h; cases h
  | some entry =>
      rw [hentry] at h
      simp only [] at h
      by_cases hclaim : (match entry.claimedBy with
          | some cb => !(cb == "") && !(cb == userId)
          | none => false) = true
      · rw [if_pos hclaim] at h; cases h
      · rw [if_neg hclaim] at h
        by_cases hexp : entry.expiresAt < now
        · rw [if_pos hexp] at h; cases h
        · rw [if_neg hexp] at h
          cases howner : findOwner db.owners entry.serial with
          | some ow =>
              rw [howner] at h
              simp only [] at h
              by_cases huid : ow.userId ≠ userId
              · rw [if_pos huid] at h; cases h
              · rw [if_neg huid] at h
                injection h with h1
                injection h1 with hdb hserial
                refine ⟨entry, _, rfl, hserial.symm, hdb.symm, ?_⟩
                by_cases hcf : ownerCreatedFalsy ow.createdAt = true
                · rw [if_pos hcf]
                  refine ⟨{ ow with createdAt := some now }, ?_, ?_⟩
                  · rw [findOwner_setCreated, howner]
                    rfl
                  · simpa using huid
                · rw [if_neg hcf]
                  exact ⟨ow, howner, by simpa using huid⟩
          | none =>
              rw [howner] at h
              simp only [] at h
              injection h with h1
              injection h1 with hdb hserial
              refine ⟨entry, _, rfl, hserial.symm, hdb.symm, ?_⟩
              refine ⟨{ serial := entry.serial, userId := userId, createdAt := some now },
                ?_, rfl⟩
              rw [findOwner_append, howner]
              simp [findOwner]

/-- The database for the claim counterexample: one fresh unclaimed code for
serial ABC, no owners, no states, one user record. -/
def claimDb0 : Db :=
  { entryKeys := [{ code := "123ABCD", serial := "ABC", createdAt := 0,
                    expiresAt := 100000, claimedBy := none, claimedAt := none }],
    owners := [], states := [],
    users := [{ clerkId := "user_xyz", email := "xyz@example.com" }] }

/-- The database after the first successful claim of the counterexample. -/
def claimDb1 : Db :=
  match claimEntryKey claimDb0 "123ABCD" "user_xyz" 10 "UTC" with
  | .ok (d, _) => d
  | .error _ => claimDb0

/-- C8 counterexample. The first claim of the fresh code succeeds; running
the claim again with the very same code, by the same user, succeeds as well
instead of being rejected: the already-claimed check only rejects a code
claimed by a different user, so the parenthetical of the claim that a second
claim of the same code is rejected is false. -/
theorem claim_same_code_twice_counterexample :
    (claimEntryKey claimDb0 "123ABCD" "user_xyz" 10 "UTC").isOk = true ∧
    (claimEntryKey claimDb1 "123ABCD" "user_xyz" 20 "UTC").isOk = true := by
  refine ⟨rfl, rfl⟩

/-- C8 amended: a successful claim leaves the device, structure, link, user
and device_alert_dialog objects all present and the device owned by the
claiming user; the claim is rejected when the code is not found, when the
code is already claimed by a different user (a re-claim of the same code by
the same user passes this check), or when the code is expired; and a claim
of a fresh unexpired unclaimed code for a serial the same user already owns
succeeds, keeping that ownership. -/
theorem claim_entry_key_contract (db : Db) (code0 userId : String) (now : Nat)
    (tz : String) :
    (∀ db2 serial, claimEntryKey db code0 userId now tz = .ok (db2, serial) →
      (findState db2.states serial ("device." ++ serial)).isSome = true ∧
      (findState db2.states serial ("structure." ++ stripUserTag userId)).isSome = true ∧
      (findState db2.states serial ("link." ++ serial)).isSome = true ∧
      (findState db2.states serial ("user." ++ stripUserTag userId)).isSome = true ∧
      (findState db2.states serial ("device_alert_dialog." ++ serial)).isSome = true) ∧
    (findEntryByCode db.entryKeys (strUpper code0) = none →
      claimEntryKey db code0 userId now tz = .error "Invalid entry key") ∧
    (∀ entry cb, findEntryByCode db.entryKeys (strUpper code0) = some entry →
      entry.claimedBy = some cb → cb ≠ "" → cb ≠ userId →
      claimEntryKey db code0 userId now tz = .error "Entry key already claimed") ∧
    (∀ entry, findEntryByCode db.entryKeys (strUpper code0) = some entry →
      (entry.claimedBy = none ∨ entry.claimedBy = some userId) →
      entry.expiresAt < now →
      claimEntryKey db code0 userId now tz = .error "Entry key expired") ∧
    (∀ db2 serial, claimEntryKey db code0 userId now tz = .ok (db2, serial) →
      ∃ ow2, findOwner db2.owners serial = some ow2 ∧ ow2.userId = userId) ∧
    (∀ entry ow, findEntryByCode db.entryKeys (strUpper code0) = some entry →
      entry.claimedBy = none → ¬ entry.expiresAt < now →
      findOwner db.owners entry.serial = some ow → ow.userId = userId →
      (claimEntryKey db code0 userId now tz).isOk = true) := by
  refine ⟨?_, ?_, ?_, ?_, ?_, ?_⟩
  · intro db2 serial h
    obtain ⟨entry, db1, _, hserial, hdb, _⟩ :=
      claimEntryKey_ok_inv db code0 userId now tz db2 serial h
    subst hserial
    rw [hdb]
    obtain ⟨h1, h2, h3, h4, h5⟩ := materialize_has_objects db1 entry userId now tz
    exact ⟨h2, h3, h4, h5, h1⟩
  · intro hnone
    unfold claimEntryKey
    rw [hnone]
  · intro entry cb hentry hcb hne hneu
    unfold claimEntryKey
    rw [hentry]
    simp only []
    rw [if_pos]
    rw [hcb]
    simp [hne, hneu]
  · intro entry hentry hcb hexp
    unfold claimEntryKey
    rw [hentry]
    simp only []
    rw [if_neg, if_pos hexp]
    rcases hcb with hcb | hcb <;> rw [hcb] <;> simp
  · intro db2 serial h
    obtain ⟨entry, db1, _, hserial, hdb, ow2, how, huid⟩ :=
      claimEntryKey_ok_inv db code0 userId now tz db2 serial h
    subst hserial
    rw [hdb, materialize_owners]
    exact ⟨ow2, how, huid⟩
  · intro entry ow hentry hcb hexp howner huid
    unfold claimEntryKey
    rw [hentry]
    simp only []
    rw [hcb]
    simp only [Bool.false_eq_true, if_false]
    rw [if_neg hexp, howner]
    simp only []
    rw [if_neg (by simp [huid])]
    rfl

theorem claim_entry_key_contract_witness :
    (claimEntryKey { entryKeys := [], owners := [], states := [], users := [] }
      "NOPE123" "user_u" 5 "UTC" = .error "Invalid entry key") ∧
    ((claimEntryKey
        { entryKeys := [{ code := "999ZZZZ", serial := "ABC", createdAt := 0,
                          expiresAt := 1000, claimedBy := none, claimedAt := none }],
          owners := [{ serial := "ABC", userId := "user_xyz", createdAt := some 1 }],
          states := [], users := [] }
        "999ZZZZ" "user_xyz" 5 "UTC").isOk = true) :=
  ⟨(claim_entry_key_contract { entryKeys := [], owners := [], states := [], users := [] }
      "NOPE123" "user_u" 5 "UTC").2.1 (by decide),
   (claim_entry_key_contract
      { entryKeys := [{ code := "999ZZZZ", serial := "ABC", createdAt := 0,
                        expiresAt := 1000, claimedBy := none, claimedAt := none }],
        owners := [{ serial := "ABC", userId := "user_xyz", createdAt := some 1 }],
        states := [], users := [] }
      "999ZZZZ" "user_xyz" 5 "UTC").2.2.2.2.2
     { code := "999ZZZZ", serial := "ABC", createdAt := 0,
       expiresAt := 1000, claimedBy := none, claimedAt := none }
     { serial := "ABC", userId := "user_xyz", createdAt := some 1 }
     (by decide) rfl (by decide) (by decide) rfl⟩

/-! # getAllState and the JSON round-trip (DeviceStateService.getAllState)

The body of getAllState is JSON.parse applied to JSON.stringify of the
cache. To state what that means for mutation, the JavaScript heap is made
explicit: objects and arrays are nodes at addresses, primitives are inline.
JSON.stringify reads the reachable object graph into its structural value
(throwing on cycles, rendered here by a fuel-bounded read returning none),
and JSON.parse allocates entirely fresh nodes for that structure. -/

/-- A primitive JSON value, stored inline. -/
inductive JPrim where
  | pnull : JPrim
  | pbool (b : Bool) : JPrim
  | pnum (n : Int) : JPrim
  | pstr (s : String) : JPrim
deriving DecidableEq

/-- A heap value: a primitive, or a reference to a heap node. -/
inductive HVal where
  | prim (p : JPrim)
  | ref (a : Nat)
deriving DecidableEq

/-- A heap node: an object with named fields, or an array. -/
inductive HNode where
  | obj (fields : List (String × HVal))
  | arr (elems : List HVal)
deriving DecidableEq

/-- The reference heap: nodes by address. -/
abbrev Heap := List (Nat × HNode)

/-- Node at an address. -/
def heapGet : Heap → Nat → Option HNode
  | [], _ => none
  | cell :: rest, a => if cell.1 = a then some cell.2 else heapGet rest a

/-- Overwrite the node at an address: the mutation of one object or array
of the JavaScript heap. -/
def heapSet : Heap → Nat → HNode → Heap
  | [], _, _ => []
  | cell :: rest, a, n => if cell.1 = a then (a, n) :: rest else cell :: heapSet rest a n

/-- Every address of the heap is below the bound. -/
def heapBelow (h : Heap) (c : Nat) : Bool :=
  h.all (fun p => p.1 < c)

/-- The structural value of a primitive. -/
def primToJVal : JPrim → JVal
  | .pnull => .jnull
  | .pbool b => .jbool b
  | .pnum n => .jnum n
  | .pstr s => .jstr s

mutual

/-- Read the object graph under a heap value into its structural value, as
JSON.stringify observes it; the fuel bounds the traversal depth, and none
renders the stringify failure on cycles or dangling references. -/
def denote : Nat → Heap → HVal → Option JVal
  | 0, _, _ => none
  | _ + 1, _, .prim p => some (primToJVal p)
  | fuel + 1, h, .ref a =>
      match heapGet h a with
      | some (.obj fs) =>
          match denoteFields fuel h fs with
          | some jo => some (.jobj jo)
          | none => none
      | some (.arr xs) =>
          match denoteElems fuel h xs with
          | some ja => some (.jarr ja)
          | none => none
      | none => none

/-- Read every field value. -/
def denoteFields : Nat → Heap → List (String × HVal) → Option JObj
  | 0, _, _ => none
  | _ + 1, _, [] => some .nil
  | fuel + 1, h, (k, v) :: rest =>
      match denote fuel h v, denoteFields fuel h rest with
      | some jv, some jrest => some (.cons k jv jrest)
      | _, _ => none

/-- Read every array element. -/
def denoteElems : Nat → Heap → List HVal → Option JArr
  | 0, _, _ => none
  | _ + 1, _, [] => some .nil
  | fuel + 1, h, v :: rest =>
      match denote fuel h v, denoteElems fuel h rest with
      | some jv, some jrest => some (.cons jv jrest)
      | _, _ => none

end

mutual

/-- A traversal depth sufficient to read back a freshly built copy of the
value. -/
def jfuelV : JVal → Nat
  | .jarr xs => jfuelA xs + 1
  | .jobj fs => jfuelO fs + 1
  | _ => 1

/-- Sufficient depth for an array. -/
def jfuelA : JArr → Nat
  | .nil => 1
  | .cons v tl => Nat.max (jfuelV v) (jfuelA tl) + 1

/-- Sufficient depth for object fields. -/
def jfuelO : JObj → Nat
  | .nil => 1
  | .cons _ v tl => Nat.max (jfuelV v) (jfuelO tl) + 1

end

mutual

/-- Build entirely fresh heap nodes realizing the structural value, the way
JSON.parse materializes a parsed document: the new cells, the root heap
value, and the next free address. -/
def allocVal : JVal → Nat → Heap × HVal × Nat
  | .jnull, c => ([], .prim .pnull, c)
  | .jbool b, c => ([], .prim (.pbool b), c)
  | .jnum n, c => ([], .prim (.pnum n), c)
  | .jstr s, c => ([], .prim (.pstr s), c)
  | .jarr xs, c =>
      let r := allocElems xs c
      (r.1 ++ [(r.2.2, .arr r.2.1)], .ref r.2.2, r.2.2 + 1)
  | .jobj fs, c =>
      let r := allocFields fs c
      (r.1 ++ [(r.2.2, .obj r.2.1)], .ref r.2.2, r.2.2 + 1)

/-- Build fresh nodes for every array element. -/
def allocElems : JArr → Nat → Heap × List HVal × Nat
  | .nil, c => ([], [], c)
  | .cons v tl, c =>
      let r1 := allocVal v c
      let r2 := allocElems tl r1.2.2
      (r1.1 ++ r2.1, r1.2.1 :: r2.2.1, r2.2.2)

/-- Build fresh nodes for every object field. -/
def allocFields : JObj → Nat → Heap × List (String × HVal) × Nat
  | .nil, c => ([], [], c)
  | .cons k v tl, c =>
      let r1 := allocVal v c
      let r2 := allocFields tl r1.2.2
      (r1.1 ++ r2.1, (k, r1.2.1) :: r2.2.1, r2.2.2)

end

/-- getAllState from DeviceStateService, over the reference heap: read the
cache graph as JSON.stringify does, and allocate a fresh copy of the read
structure as JSON.parse does, appended to the heap. -/
def getAllState (h : Heap) (root : HVal) (fuel c : Nat) :
    Option (Heap × HVal × Nat) :=
  match denote fuel h root with
  | none => none
  | some j =>
      let r := allocVal j c
      some (h ++ r.1, r.2.1, r.2.2)

/-! ## Heap lemmas -/

theorem heapGet_append :
    ∀ (h1 h2 : Heap) (a : Nat),
    heapGet (h1 ++ h2) a =
      match heapGet h1 a with
      | some n => some n
      | none => heapGet h2 a
  | [], _, _ => rfl
  | cell :: rest, h2, a => by
      by_cases h : cell.1 = a
      · simp [heapGet, h]
      · simp [heapGet, h, heapGet_append rest h2 a]

theorem heapBelow_mono (h : Heap) (c c2 : Nat) (hb : heapBelow h c = true)
    (hle : c ≤ c2) : heapBelow h c2 = true := by
  simp only [heapBelow, List.all_eq_true, decide_eq_true_eq] at hb ⊢
  intro p hp
  exact lt_of_lt_of_le (hb p hp) hle

theorem heapBelow_append (h1 h2 : Heap) (c : Nat) (hb1 : heapBelow h1 c = true)
    (hb2 : heapBelow h2 c = true) : heapBelow (h1 ++ h2) c = true := by
  simp only [heapBelow, List.all_eq_true, decide_eq_true_eq, List.mem_append] at hb1 hb2 ⊢
  rintro p (hp | hp)
  · exact hb1 p hp
  · exact hb2 p hp

theorem heapGet_below_none :
    ∀ (h : Heap) (c a : Nat), heapBelow h c = true → c ≤ a → heapGet h a = none
  | [], _, _, _, _ => rfl
  | cell :: rest, c, a, hb, hle => by
      simp only [heapBelow, List.all_cons, Bool.and_eq_true, decide_eq_true_eq] at hb
      have hne : cell.1 ≠ a := by omega
      simp only [heapGet, if_neg hne]
      exact heapGet_below_none rest c a (by simpa [heapBelow] using hb.2) hle

theorem heapGet_of_some_append (h1 h2 : Heap) (a : Nat) (n : HNode)
    (h : heapGet h1 a = some n) : heapGet (h1 ++ h2) a = some n := by
  rw [heapGet_append, h]

theorem heapSet_append_of_below :
    ∀ (h1 h2 : Heap) (c a : Nat) (n : HNode), heapBelow h1 c = true → c ≤ a →
    heapSet (h1 ++ h2) a n = h1 ++ heapSet h2 a n
  | [], _, _, _, _, _, _ => rfl
  | cell :: rest, h2, c, a, n, hb, hle => by
      simp only [heapBelow, List.all_cons, Bool.and_eq_true, decide_eq_true_eq] at hb
      have hne : cell.1 ≠ a := by omega
      simp only [List.cons_append, heapSet, if_neg hne]
      exact congrArg (cell :: ·)
        (heapSet_append_of_below rest h2 c a n (by simpa [heapBelow] using hb.2) hle)

mutual

theorem denote_extend :
    ∀ (fuel : Nat) (h nh : Heap) (v : HVal) (j : JVal),
    denote fuel h v = some j → denote fuel (h ++ nh) v = some j
  | 0, _, _, _, _, hd => by cases hd
  | _ + 1, _, _, .prim p, _, hd => hd
  | fuel + 1, h, nh, .ref a, j, hd => by
      simp only [denote] at hd ⊢
      cases hget : heapGet h a with
      | none => rw [hget] at hd; cases hd
      | some node =>
          rw [heapGet_of_some_append h nh a node hget]
          rw [hget] at hd
          cases node with
          | obj fs =>
              simp only [] at hd ⊢
              cases hdf : denoteFields fuel h fs with
              | none => rw [hdf] at hd; cases hd
              | some jo =>
                  rw [hdf] at hd
                  rw [denoteFields_extend fuel h nh fs jo hdf]
                  exact hd
          | arr xs =>
              simp only [] at hd ⊢
              cases hde : denoteElems fuel h xs with
              | none => rw [hde] at hd; cases hd
              | some ja =>
                  rw [hde] at hd
                  rw [denoteElems_extend fuel h nh xs ja hde]
                  exact hd

theorem denoteFields_extend :
    ∀ (fuel : Nat) (h nh : Heap) (fs : List (String × HVal)) (jo : JObj),
    denoteFields fuel h fs = some jo → denoteFields fuel (h ++ nh) fs = some jo
  | 0, _, _, _, _, hd => by cases hd
  | _ + 1, _, _, [], _, hd => hd
  | fuel + 1, h, nh, (k, v) :: rest, jo, hd => by
      simp only [denoteFields] at hd ⊢
      cases hv : denote fuel h v with
      | none => rw [hv] at hd; cases hd
      | some jv =>
          rw [hv] at hd
          cases hr : denoteFields fuel h rest with
          | none => rw [hr] at hd; cases hd
          | some jrest =>
              rw [hr] at hd
              rw [denote_extend fuel h nh v jv hv,
                denoteFields_extend fuel h nh rest jrest hr]
              exact hd

theorem denoteElems_extend :
    ∀ (fuel : Nat) (h nh : Heap) (xs : List HVal) (ja : JArr),
    denoteElems fuel h xs = some ja → denoteElems fuel (h ++ nh) xs = some ja
  | 0, _, _, _, _, hd => by cases hd
  | _ + 1, _, _, [], _, hd => hd
  | fuel + 1, h, nh, v :: rest, ja, hd => by
      simp only [denoteElems] at hd ⊢
      cases hv : denote fuel h v with
      | none => rw [hv] at hd; cases hd
      | some jv =>
          rw [hv] at hd
          cases hr : denoteElems fuel h rest with
          | none => rw [hr] at hd; cases hd
          | some jrest =>
              rw [hr] at hd
              rw [denote_extend fuel h nh v jv hv,
                denoteElems_extend fuel h nh rest jrest hr]
              exact hd

end

mutual

theorem allocVal_spec :
    ∀ (j : JVal) (c : Nat),
    c ≤ (allocVal j c).2.2 ∧
    (∀ p ∈ (allocVal j c).1, c ≤ p.1 ∧ p.1 < (allocVal j c).2.2) ∧
    (∀ (H : Heap) (fuel : Nat), heapBelow H c = true → jfuelV j ≤ fuel →
      denote fuel (H ++ (allocVal j c).1) (allocVal j c).2.1 = some j)
  | .jnull, c => by
      refine ⟨le_refl c, ?_, ?_⟩
      · intro p hp
        cases hp
      · intro H fuel hb hfuel
        cases fuel with
        | zero => simp [jfuelV] at hfuel
        | succ f => rfl
  | .jbool b, c => by
      refine ⟨le_refl c, ?_, ?_⟩
      · intro p hp
        cases hp
      · intro H fuel hb hfuel
        cases fuel with
        | zero => simp [jfuelV] at hfuel
        | succ f => rfl
  | .jnum n, c => by
      refine ⟨le_refl c, ?_, ?_⟩
      · intro p hp
        cases hp
      · intro H fuel hb hfuel
        cases fuel with
        | zero => simp [jfuelV] at hfuel
        | succ f => rfl
  | .jstr s, c => by
      refine ⟨le_refl c, ?_, ?_⟩
      · intro p hp
        cases hp
      · intro H fuel hb hfuel
        cases fuel with
        | zero => simp [jfuelV] at hfuel
        | succ f => rfl
  | .jarr xs, c => by
      obtain ⟨hc1, hdom, hden⟩ := allocElems_spec xs c
      refine ⟨?_, ?_, ?_⟩
      · show c ≤ (allocElems xs c).2.2 + 1
        omega
      · intro p hp
        show c ≤ p.1 ∧ p.1 < (allocElems xs c).2.2 + 1
        rcases List.mem_append.mp hp with hp | hp
        · have := hdom p hp
          omega
        · simp only [List.mem_singleton] at hp
          subst hp
          simp only []
          omega
      · intro H fuel hb hfuel
        cases fuel with
        | zero => simp [jfuelV] at hfuel
        | succ f =>
            have hf : jfuelA xs ≤ f := by
              simp [jfuelV] at hfuel
              omega
            show denote (f + 1)
              (H ++ ((allocElems xs c).1 ++ [((allocElems xs c).2.2, .arr (allocElems xs c).2.1)]))
              (.ref (allocElems xs c).2.2) = some (.jarr xs)
            have hb1 : heapBelow (allocElems xs c).1 (allocElems xs c).2.2 = true := by
              simp only [heapBelow, List.all_eq_true, decide_eq_true_eq]
              intro p hp
              exact (hdom p hp).2
            have hH : heapGet H (allocElems xs c).2.2 = none :=
              heapGet_below_none H c _ hb hc1
            have hh1 : heapGet (allocElems xs c).1 (allocElems xs c).2.2 = none :=
              heapGet_below_none _ _ _ hb1 (le_refl _)
            have hd0 : denoteElems f (H ++ (allocElems xs c).1) (allocElems xs c).2.1 = some xs :=
              hden H f hb hf
            have hd1 := denoteElems_extend f _
              [((allocElems xs c).2.2, .arr (allocElems xs c).2.1)] _ xs hd0
            rw [List.append_assoc] at hd1
            simp only [denote]
            simp only [heapGet_append, hH, hh1, heapGet]
            simp only [if_true]
            simp only [hd1]
  | .jobj fs, c => by
      obtain ⟨hc1, hdom, hden⟩ := allocFields_spec fs c
      refine ⟨?_, ?_, ?_⟩
      · show c ≤ (allocFields fs c).2.2 + 1
        omega
      · intro p hp
        show c ≤ p.1 ∧ p.1 < (allocFields fs c).2.2 + 1
        rcases List.mem_append.mp hp with hp | hp
        · have := hdom p hp
          omega
        · simp only [List.mem_singleton] at hp
          subst hp
          simp only []
          omega
      · intro H fuel hb hfuel
        cases fuel with
        | zero => simp [jfuelV] at hfuel
        | succ f =>
            have hf : jfuelO fs ≤ f := by
              simp [jfuelV] at hfuel
              omega
            show denote (f + 1)
              (H ++ ((allocFields fs c).1 ++ [((allocFields fs c).2.2, .obj (allocFields fs c).2.1)]))
              (.ref (allocFields fs c).2.2) = some (.jobj fs)
            have hb1 : heapBelow (allocFields fs c).1 (allocFields fs c).2.2 = true := by
              simp only [heapBelow, List.all_eq_true, decide_eq_true_eq]
              intro p hp
              exact (hdom p hp).2
            have hH : heapGet H (allocFields fs c).2.2 = none :=
              heapGet_below_none H c _ hb hc1
            have hh1 : heapGet (allocFields fs c).1 (allocFields fs c).2.2 = none :=
              heapGet_below_none _ _ _ hb1 (le_refl _)
            have hd0 : denoteFields f (H ++ (allocFields fs c).1) (allocFields fs c).2.1 = some fs :=
              hden H f hb hf
            have hd1 := denoteFields_extend f _
              [((allocFields fs c).2.2, .obj (allocFields fs c).2.1)] _ fs hd0
            rw [List.append_assoc] at hd1
            simp only [denote]
            simp only [heapGet_append, hH, hh1, heapGet]
            simp only [if_true]
            simp only [hd1]

theorem allocElems_spec :
    ∀ (xs : JArr) (c : Nat),
    c ≤ (allocElems xs c).2.2 ∧
    (∀ p ∈ (allocElems xs c).1, c ≤ p.1 ∧ p.1 < (allocElems xs c).2.2) ∧
    (∀ (H : Heap) (fuel : Nat), heapBelow H c = true → jfuelA xs ≤ fuel →
      denoteElems fuel (H ++ (allocElems xs c).1) (allocElems xs c).2.1 = some xs)
  | .nil, c => by
      refine ⟨le_refl c, ?_, ?_⟩
      · intro p hp
        cases hp
      · intro H fuel hb hfuel
        cases fuel with
        | zero => simp [jfuelA] at hfuel
        | succ f => rfl
  | .cons v tl, c => by
      obtain ⟨hv1, hvdom, hvden⟩ := allocVal_spec v c
      obtain ⟨ht1, htdom, htden⟩ := allocElems_spec tl (allocVal v c).2.2
      refine ⟨?_, ?_, ?_⟩
      · show c ≤ (allocElems tl (allocVal v c).2.2).2.2
        omega
      · intro p hp
        show c ≤ p.1 ∧ p.1 < (allocElems tl (allocVal v c).2.2).2.2
        rcases List.mem_append.mp hp with hp | hp
        · have := hvdom p hp
          omega
        · have := htdom p hp
          omega
      · intro H fuel hb hfuel
        cases fuel with
        | zero => simp [jfuelA] at hfuel
        | succ f =>
            have hfv : jfuelV v ≤ f := by
              simp [jfuelA] at hfuel
              omega
            have hft : jfuelA tl ≤ f := by
              simp [jfuelA] at hfuel
              omega
            show denoteElems (f + 1)
              (H ++ ((allocVal v c).1 ++ (allocElems tl (allocVal v c).2.2).1))
              ((allocVal v c).2.1 :: (allocElems tl (allocVal v c).2.2).2.1) =
              some (.cons v tl)
            have hdv : denote f (H ++ (allocVal v c).1) (allocVal v c).2.1 = some v :=
              hvden H f hb hfv
            have hdv2 := denote_extend f _ (allocElems tl (allocVal v c).2.2).1 _ v hdv
            rw [List.append_assoc] at hdv2
            have hbH1 : heapBelow (H ++ (allocVal v c).1) (allocVal v c).2.2 = true := by
              apply heapBelow_append
              · exact heapBelow_mono H c _ hb hv1
              · simp only [heapBelow, List.all_eq_true, decide_eq_true_eq]
                intro p hp
                exact (hvdom p hp).2
            have hdt : denoteElems f
                ((H ++ (allocVal v c).1) ++ (allocElems tl (allocVal v c).2.2).1)
                (allocElems tl (allocVal v c).2.2).2.1 = some tl :=
              htden (H ++ (allocVal v c).1) f hbH1 hft
            rw [List.append_assoc] at hdt
            simp only [denoteElems]
            rw [hdv2, hdt]

theorem allocFields_spec :
    ∀ (fs : JObj) (c : Nat),
    c ≤ (allocFields fs c).2.2 ∧
    (∀ p ∈ (allocFields fs c).1, c ≤ p.1 ∧ p.1 < (allocFields fs c).2.2) ∧
    (∀ (H : Heap) (fuel : Nat), heapBelow H c = true → jfuelO fs ≤ fuel →
      denoteFields fuel (H ++ (allocFields fs c).1) (allocFields fs c).2.1 = some fs)
  | .nil, c => by
      refine ⟨le_refl c, ?_, ?_⟩
      · intro p hp
        cases hp
      · intro H fuel hb hfuel
        cases fuel with
        | zero => simp [jfuelO] at hfuel
        | succ f => rfl
  | .cons k v tl, c => by
      obtain ⟨hv1, hvdom, hvden⟩ := allocVal_spec v c
      obtain ⟨ht1, htdom, htden⟩ := allocFields_spec tl (allocVal v c).2.2
      refine ⟨?_, ?_, ?_⟩
      · show c ≤ (allocFields tl (allocVal v c).2.2).2.2
        omega
      · intro p hp
        show c ≤ p.1 ∧ p.1 < (allocFields tl (allocVal v c).2.2).2.2
        rcases List.mem_append.mp hp with hp | hp
        · have := hvdom p hp
          omega
        · have := htdom p hp
          omega
      · intro H fuel hb hfuel
        cases fuel with
        | zero => simp [jfuelO] at hfuel
        | succ f =>
            have hfv : jfuelV v ≤ f := by
              simp [jfuelO] at hfuel
              omega
            have hft : jfuelO tl ≤ f := by
              simp [jfuelO] at hfuel
              omega
            show denoteFields (f + 1)
              (H ++ ((allocVal v c).1 ++ (allocFields tl (allocVal v c).2.2).1))
              ((k, (allocVal v c).2.1) :: (allocFields tl (allocVal v c).2.2).2.1) =
              some (.cons k v tl)
            have hdv : denote f (H ++ (allocVal v c).1) (allocVal v c).2.1 = some v :=
              hvden H f hb hfv
            have hdv2 := denote_extend f _ (allocFields tl (allocVal v c).2.2).1 _ v hdv
            rw [List.append_assoc] at hdv2
            have hbH1 : heapBelow (H ++ (allocVal v c).1) (allocVal v c).2.2 = true := by
              apply heapBelow_append
              · exact heapBelow_mono H c _ hb hv1
              · simp only [heapBelow, List.all_eq_true, decide_eq_true_eq]
                intro p hp
                exact (hvdom p hp).2
            have hdt : denoteFields f
                ((H ++ (allocVal v c).1) ++ (allocFields tl (allocVal v c).2.2).1)
                (allocFields tl (allocVal v c).2.2).2.1 = some tl :=
              htden (H ++ (allocVal v c).1) f hbH1 hft
            rw [List.append_assoc] at hdt
            simp only [denoteFields]
            rw [hdv2, hdt]

end

/-! ## C10: getAllState returns an independent deep copy -/

/-- C10: getAllState returns a deep copy of the cache: it succeeds whenever
the stringify read of the cache graph does, the copy denotes exactly the
structural value of the cache (structural equality), the cache itself still
denotes that value in the extended heap, every cell the call adds lives at
a fresh address at or beyond the allocation frontier, and overwriting any
node at such an address, hence any node of the returned copy, leaves the
denotation of the cache root, and so every subsequent read of the cache,
unchanged. -/
theorem getAllState_deep_copy (h : Heap) (root : HVal) (fuel c : Nat)
    (j : JVal) (hbelow : heapBelow h c = true)
    (hden : denote fuel h root = some j) :
    getAllState h root fuel c =
      some (h ++ (allocVal j c).1, (allocVal j c).2.1, (allocVal j c).2.2) ∧
    denote (jfuelV j) (h ++ (allocVal j c).1) (allocVal j c).2.1 = some j ∧
    denote fuel (h ++ (allocVal j c).1) root = some j ∧
    (∀ p ∈ (allocVal j c).1, c ≤ p.1 ∧ p.1 < (allocVal j c).2.2) ∧
    (∀ (a : Nat) (n : HNode), c ≤ a →
      denote fuel (heapSet (h ++ (allocVal j c).1) a n) root = some j) := by
  obtain ⟨hc1, hdom, hdenalloc⟩ := allocVal_spec j c
  refine ⟨?_, ?_, ?_, hdom, ?_⟩
  · unfold getAllState
    rw [hden]
  · exact hdenalloc h (jfuelV j) hbelow (le_refl _)
  · exact denote_extend fuel h _ root j hden
  · intro a n ha
    rw [heapSet_append_of_below h _ c a n hbelow ha]
    exact denote_extend fuel h _ root j hden

/-- A two-object cache heap for the deep-copy witness. -/
def copyDemoHeap : Heap :=
  [(0, .obj [("device.S", .ref 1)]), (1, .obj [("x", .prim (.pnum 1))])]

/-- Its structural value. -/
def copyDemoVal : JVal :=
  .jobj (.cons "device.S" (.jobj (.cons "x" (.jnum 1) .nil)) .nil)

theorem getAllState_deep_copy_witness :
    heapBelow copyDemoHeap 2 = true ∧
    denote 6 copyDemoHeap (.ref 0) = some copyDemoVal ∧
    denote 6 (heapSet (copyDemoHeap ++ (allocVal copyDemoVal 2).1) 2 (.obj []))
      (.ref 0) = some copyDemoVal :=
  ⟨by decide, by decide,
   (getAllState_deep_copy copyDemoHeap (.ref 0) 6 2 copyDemoVal
      (by decide) (by decide)).2.2.2.2 2 (.obj []) (by decide)⟩
